import Mathlib

/-!
Shallow embedding of `reprclust/reproducibility.py` (the cross-validation driver of
the reprclust package): the fold partitioner, the per-fold k-sweep runner
(`_run_fold`) and the orchestrator (`reproducibility`).

Modelling conventions:
* A PyMVPA `Dataset` is a matrix of samples (observational units × features) plus
  three attribute collections (`sa`, `fa`, `a`) mapping names to label arrays;
  Python dictionaries and attribute collections are association lists with
  overwrite-on-insert semantics.
* A cluster method is a state type `σ` with `train`/`predict` transition functions;
  Python's in-place mutation becomes explicit state passing.  `_run_fold` binds
  `cm_train` to the caller-supplied method object itself (no copy) and
  `cm_test` to `copy.deepcopy(cm_train)`, so the embedding threads the caller's
  state through `cm_train` (returning its final value) and gives `cm_test` a value
  copy of the entry state.
* Errors (`TypeError`, `ValueError`, `KeyError`, `AttributeError`, `IndexError`)
  become an `Except PyError` result.
* `joblib.Parallel(n_jobs=1)` applies `_run_fold` directly to the caller's live
  objects in submission order (sequential model, state threaded across folds);
  `n_jobs>1` pickles the arguments of each task at dispatch time, so every fold
  receives an independent copy of the cluster method's pre-call state, and the
  pool returns results in dispatch order regardless of worker completion order
  (parallel model, parametrised by a completion order).
-/

abbrev Labels := List Int

abbrev Mtx := List (List Int)

/-- One metric's output table: row 0 is the k-sweep, row 1 the scores
(`np.vstack((ks, np.zeros(len(ks))))`). -/
abbrev Table := List Nat × List Int

/-- A Python dict keyed by strings (association list, unique keys by construction). -/
abbrev FoldResult := List (String × Table)

inductive PyError : Type where
  | typeError (msg : String)
  | valueError (msg : String)
  | keyError (msg : String)
  | attributeError (msg : String)
  | indexError (msg : String)
deriving DecidableEq, Repr

instance {ε α : Type} [DecidableEq ε] [DecidableEq α] : DecidableEq (Except ε α) := fun a b =>
  match a, b with
  | .ok x, .ok y =>
    if h : x = y then .isTrue (by rw [h]) else .isFalse (fun hh => h (Except.ok.inj hh))
  | .error x, .error y =>
    if h : x = y then .isTrue (by rw [h]) else .isFalse (fun hh => h (Except.error.inj hh))
  | .ok _, .error _ => .isFalse (fun hh => Except.noConfusion hh)
  | .error _, .ok _ => .isFalse (fun hh => Except.noConfusion hh)

/-- Dictionary lookup (`d[key]` / `key in d`: first entry whose key matches). -/
def dfind {β : Type} : List (String × β) → String → Option β
  | [], _ => none
  | p :: rest, key => if p.1 = key then some p.2 else dfind rest key

/-- Key list of a dictionary. -/
def dkeys {β : Type} (d : List (String × β)) : List String := d.map Prod.fst

/-- Dictionary assignment `d[key] = v`: overwrite an existing entry, else append. -/
def dinsert {β : Type} : List (String × β) → String → β → List (String × β)
  | [], key, v => [(key, v)]
  | p :: rest, key, v =>
    if p.1 = key then (key, v) :: rest else p :: dinsert rest key v

/-- In-place update of the value stored at `key` (used for `d[key][1, i] = v`;
the key is always present at the call sites, mirroring the Python code where the
k-loop only writes keys created during result allocation). -/
def dmodify {β : Type} : List (String × β) → String → (β → β) → List (String × β)
  | [], _, _ => []
  | p :: rest, key, f =>
    if p.1 = key then (p.1, f p.2) :: dmodify rest key f else p :: dmodify rest key f

/-- PyMVPA dataset: `samples` is the units × features matrix, `sa`/`fa` are the
sample/feature attribute collections and `a` the dataset attribute collection
(all three expose `keys()`; other Python attributes of a `Dataset` do not expose
a keyed collection, which `getattrColl` models by returning `none`). -/
structure Dataset where
  samples : Mtx
  sa : List (String × Labels)
  fa : List (String × Labels)
  a : List (String × Labels)
deriving Repr

def Dataset.nsamples (d : Dataset) : Nat := d.samples.length

/-- Column count of the sample matrix (`data.nfeatures`); datasets are
rectangular, which theorems assume through explicit length hypotheses. -/
def Dataset.nfeatures (d : Dataset) : Nat := (d.samples.headD []).length

/-- Attribute lookup `getattr(data, attr)` restricted to attributes that carry a
keyed collection; any other name makes the subsequent `.keys()` access fail. -/
def getattrColl (data : Dataset) (attr : String) : Option (List (String × Labels)) :=
  if attr = "sa" then some data.sa
  else if attr = "fa" then some data.fa
  else if attr = "a" then some data.a
  else none

/-- Structural `split('.')` on the character list of a string. -/
def splitDotAux : List Char → List Char → List (List Char)
  | [], acc => [acc.reverse]
  | c :: cs, acc =>
    if c = '.' then acc.reverse :: splitDotAux cs [] else splitDotAux cs (c :: acc)

/-- One element of `spaces_split = map(lambda x: x.split('.'), spaces)`, destructured
into `(attr, attr_space)`; any arity other than two fails the tuple unpacking. -/
def parseSpace (s : String) : Except PyError (String × String) :=
  match splitDotAux s.data [] with
  | [a, b] => .ok (String.mk a, String.mk b)
  | _ => .error (.valueError "space descriptor must unpack into (attr, attr_space)")

def parseSpaces (spaces : List String) : Except PyError (List (String × String)) :=
  spaces.mapM parseSpace

/-- The validation loop of `_run_fold`: for every `(attr, attr_space)` make sure
`attr_space in getattr(data, attr).keys()`, else `KeyError`; a name without a
keyed collection fails attribute lookup. -/
def checkSpaces (data : Dataset) : List (String × String) → Except PyError Unit
  | [] => .ok ()
  | p :: rest =>
    match getattrColl data p.1 with
    | none => .error (.attributeError p.1)
    | some coll =>
      if p.2 ∈ dkeys coll then checkSpaces data rest else .error (.keyError p.2)

/-- Boolean membership vector `np.in1d(arr, s)`. -/
def in1d (arr : Labels) (s : Labels) : List Bool :=
  arr.map (fun x => decide (x ∈ s))

/-- Pointwise conjunction `mask &= other`. -/
def maskAnd (a b : List Bool) : List Bool := List.zipWith and a b

/-- The four per-axis masks of one fold. -/
structure Masks where
  sa_train : List Bool
  sa_test : List Bool
  fa_train : List Bool
  fa_test : List Bool
deriving DecidableEq, Repr

/-- All four masks start out all-true
(`np.ones(data.nsamples / data.nfeatures, dtype=bool)`). -/
def initMasks (data : Dataset) : Masks :=
  ⟨List.replicate data.nsamples true, List.replicate data.nsamples true,
   List.replicate data.nfeatures true, List.replicate data.nfeatures true⟩

/-- One iteration of the mask loop of `_run_fold`: AND the membership of the named
annotation array in the train set into the axis's train mask and its membership in
the test set into the axis's test mask; an axis kind other than `sa`/`fa` reaches
the `raise ValueError('We should not get here')` branch. -/
def updateMasksStep (data : Dataset) (msk : Masks)
    (p : (Labels × Labels) × (String × String)) : Except PyError Masks :=
  if p.2.1 = "sa" then
    match dfind data.sa p.2.2 with
    | none => .error (.keyError p.2.2)
    | some arr =>
      .ok { msk with
        sa_train := maskAnd msk.sa_train (in1d arr p.1.1)
        sa_test := maskAnd msk.sa_test (in1d arr p.1.2) }
  else if p.2.1 = "fa" then
    match dfind data.fa p.2.2 with
    | none => .error (.keyError p.2.2)
    | some arr =>
      .ok { msk with
        fa_train := maskAnd msk.fa_train (in1d arr p.1.1)
        fa_test := maskAnd msk.fa_test (in1d arr p.1.2) }
  else .error (.valueError "We should not get here")

def computeMasksAux (data : Dataset) :
    List ((Labels × Labels) × (String × String)) → Masks → Except PyError Masks
  | [], msk => .ok msk
  | p :: rest, msk =>
    match updateMasksStep data msk p with
    | .error e => .error e
    | .ok msk' => computeMasksAux data rest msk'

/-- The fold partitioner: `for (train, test), (attr, attr_space) in zip(split,
spaces_split)` over masks initialised to all-true. -/
def computeMasks (data : Dataset) (split : List (Labels × Labels))
    (spacesSplit : List (String × String)) : Except PyError Masks :=
  computeMasksAux data (split.zip spacesSplit) (initMasks data)

/-- Boolean-mask selection along one axis. -/
def applyMask {α : Type} (mask : List Bool) (xs : List α) : List α :=
  ((xs.zip mask).filter (fun p => p.2)).map Prod.fst

/-- Dataset slicing `data[mask_sa, mask_fa]`: rows and columns of the sample
matrix are filtered together with the aligned attribute arrays. -/
def sliceDataset (d : Dataset) (saMask faMask : List Bool) : Dataset :=
  { samples := (applyMask saMask d.samples).map (applyMask faMask)
    sa := d.sa.map (fun p => (p.1, applyMask saMask p.2))
    fa := d.fa.map (fun p => (p.1, applyMask faMask p.2))
    a := d.a }

/-- Prepend a column to a row-major matrix (auxiliary to transposition). -/
def consCols : List Int → List (List Int) → List (List Int)
  | [], ys => ys
  | x :: xs, [] => [x] :: consCols xs []
  | x :: xs, y :: ys => (x :: y) :: consCols xs ys

/-- Mtx transposition `samples.T` (row-major, rectangular inputs). -/
def transposeM : Mtx → Mtx
  | [] => []
  | r :: rs => consCols r (transposeM rs)

/-- A cluster method, as used by `_run_fold`: a state type with `train` (always
called with `compute_full=True`) and `predict`.  The Python object mutates in
place; here `train` returns the successor state. -/
structure CMethod (σ : Type) where
  train : σ → Mtx → Nat → σ
  predict : σ → Mtx → Nat → Labels

/-- A cluster metric: a stable string identity (`str(metric)`) and a scoring
function called as `metric(labels_a, labels_b, data=..., k=...)`. -/
structure CMetric where
  name : String
  score : Labels → Labels → Mtx → Nat → Int

/-- Everything `_run_fold` does before the k-loop: space parsing, the validation
loop, the fold partitioner, dataset slicing, the (optional) fold transform
`fold_fx` — defaulting to `(x.samples, y.samples)` — and the final transposition
of both matrices (clustering partitions features, i.e. columns). -/
def foldSetup (data : Dataset) (split : List (Labels × Labels))
    (fold_fx : Option (Dataset → Dataset → Mtx × Mtx)) (spaces : List String) :
    Except PyError (Mtx × Mtx) :=
  match parseSpaces spaces with
  | .error e => .error e
  | .ok spacesSplit =>
    match checkSpaces data spacesSplit with
    | .error e => .error e
    | .ok _ =>
      match computeMasks data split spacesSplit with
      | .error e => .error e
      | .ok msk =>
        let data_train := sliceDataset data msk.sa_train msk.fa_train
        let data_test := sliceDataset data msk.sa_test msk.fa_test
        let pair :=
          match fold_fx with
          | none => (data_train.samples, data_test.samples)
          | some f => f data_train data_test
        .ok (transposeM pair.1, transposeM pair.2)

/-- Result-dictionary allocation: for every metric a `(ks, zeros)` table under
`str(metric)`, and additionally under `str(metric) + '_gt'` when a ground truth
was supplied. -/
def initResult (ks : List Nat) (gt : Option Labels) :
    List CMetric → FoldResult → FoldResult
  | [], d => d
  | mt :: rest, d =>
    let d := dinsert d mt.name (ks, List.replicate ks.length 0)
    let d :=
      match gt with
      | none => d
      | some _ => dinsert d (mt.name ++ "_gt") (ks, List.replicate ks.length 0)
    initResult ks gt rest d

/-- Write one k's scores: `result[str(metric)][1, i] = metric(predicted, test,
data=samples_test, k=k)` for every metric, plus the `_gt` entry scored against
the ground truth when supplied. -/
def setScore (d : FoldResult) (key : String) (i : Nat) (v : Int) : FoldResult :=
  dmodify d key (fun t => (t.1, t.2.set i v))

def recordScores (gt : Option Labels) (sTe : Mtx) (predicted testLabel : Labels)
    (i k : Nat) : List CMetric → FoldResult → FoldResult
  | [], d => d
  | mt :: rest, d =>
    let d := setScore d mt.name i (mt.score predicted testLabel sTe k)
    let d :=
      match gt with
      | none => d
      | some g => setScore d (mt.name ++ "_gt") i (mt.score predicted g sTe k)
    recordScores gt sTe predicted testLabel i k rest d

/-- State of the k-loop: the result dictionary and the two live method states
(`cm_train`, aliasing the caller's object, and `cm_test`, its deepcopy). -/
structure KState (σ : Type) where
  res : FoldResult
  stTrain : σ
  stTest : σ

/-- The k-loop `for i_k, k in enumerate(ks)`: train both instances (in place, no
reset between k values), cross-predict on the test matrix, then record every
metric's scores at column `i_k`. -/
def kLoopAux {σ : Type} (cm : CMethod σ) (metrics : List CMetric) (gt : Option Labels)
    (sTr sTe : Mtx) : List Nat → Nat → KState σ → KState σ
  | [], _, st => st
  | k :: rest, i, st =>
    let s1 := cm.train st.stTrain sTr k
    let s2 := cm.train st.stTest sTe k
    let predicted := cm.predict s1 sTe k
    let testLabel := cm.predict s2 sTe k
    kLoopAux cm metrics gt sTr sTe rest (i + 1)
      ⟨recordScores gt sTe predicted testLabel i k metrics st.res, s1, s2⟩

/-- The fold runner `_run_fold`.  `cm_state` is the current state of the
caller-supplied `cluster_method` object; since `cm_train = cluster_method` (no
copy) the returned `σ` is that object's state after the fold, while
`cm_test = copy.deepcopy(cm_train)` starts from a value copy of the same state.
The `isinstance(data, Dataset)` guard is enforced by the type of `data`. -/
def _run_fold {σ : Type} (data : Dataset) (split : List (Labels × Labels))
    (cluster_method : CMethod σ) (cm_state : σ) (ks : List Nat)
    (fold_fx : Option (Dataset → Dataset → Mtx × Mtx))
    (ground_truth : Option Labels) (cluster_metrics : List CMetric)
    (spaces : List String) : Except PyError (FoldResult × σ) :=
  match foldSetup data split fold_fx spaces with
  | .error e => .error e
  | .ok pair =>
    let fin := kLoopAux cluster_method cluster_metrics ground_truth pair.1 pair.2 ks 0
      ⟨initResult ks ground_truth cluster_metrics [], cm_state, cm_state⟩
    .ok (fin.res, fin.stTrain)

/-- Fold enumeration `itertools.product(*splitters)`: the Cartesian product in
which the first splitter varies slowest. -/
def listProd {α : Type} : List (List α) → List (List α)
  | [] => [[]]
  | l :: ls => (l.map (fun x => (listProd ls).map (fun r => x :: r))).flatten

/-- Sequential dispatch (`n_jobs=1`): joblib's sequential backend applies
`_run_fold` directly to the caller's objects task by task, so the state of the
caller-supplied `cluster_method` threads from each fold into the next. -/
def runFoldsSeq {σ : Type} (data : Dataset) (cm : CMethod σ) (ks : List Nat)
    (fold_fx : Option (Dataset → Dataset → Mtx × Mtx)) (gt : Option Labels)
    (metrics : List CMetric) (spaces : List String) :
    List (List (Labels × Labels)) → σ → Except PyError (List FoldResult × σ)
  | [], st => .ok ([], st)
  | f :: rest, st =>
    match _run_fold data f cm st ks fold_fx gt metrics spaces with
    | .error e => .error e
    | .ok (r, st') =>
      match runFoldsSeq data cm ks fold_fx gt metrics spaces rest st' with
      | .error e => .error e
      | .ok (rs, st'') => .ok (r :: rs, st'')

/-- Horizontal concatenation `np.hstack` of two-row tables. -/
def hstackTables (ts : List Table) : Table :=
  ((ts.map Prod.fst).flatten, (ts.map Prod.snd).flatten)

/-- The generator `(res[metric] for res in results)`: look one key up in every
fold's result in order; a missing key raises `KeyError`. -/
def lookupTables (key : String) : List FoldResult → Except PyError (List Table)
  | [] => .ok []
  | r :: rest =>
    match dfind r key with
    | none => .error (.keyError key)
    | some t =>
      match lookupTables key rest with
      | .error e => .error e
      | .ok ts => .ok (t :: ts)

/-- The aggregation loop: for every metric key of the first fold's result,
horizontally concatenate that key's table across all folds in order
(`scores[metric] = np.hstack(res[metric] for res in results)`). -/
def aggAux (results : List FoldResult) :
    List (String × Table) → List (String × Table) → Except PyError (List (String × Table))
  | [], scores => .ok scores
  | p :: rest, scores =>
    match lookupTables p.1 results with
    | .error e => .error e
    | .ok tables => aggAux results rest (dinsert scores p.1 (hstackTables tables))

/-- Aggregation starts from `results[0]`, which raises `IndexError` on an empty
fold enumeration. -/
def aggregate (results : List FoldResult) : Except PyError (List (String × Table)) :=
  match results with
  | [] => .error (.indexError "list index out of range")
  | r0 :: _ => aggAux results r0 []

/-- The orchestrator `reproducibility` under sequential dispatch (`n_jobs=1`).
`ks` is a list by type (the `isinstance(ks, (list, np.ndarray))` guard) and
`splitters`/`spaces` are already list-normalised.  When the splitter and space
counts differ the code builds `'Got {0} splitters and {1} spaces'.format(
len(splitters, len(spaces)))`: evaluating the format argument calls `len` with
two arguments, which raises `TypeError` before the intended `ValueError` is
ever constructed. -/
def reproducibility_seq {σ : Type} (data : Dataset)
    (splitters : List (List (Labels × Labels))) (cm : CMethod σ) (st : σ)
    (ks : List Nat) (ground_truth : Option Labels)
    (fold_fx : Option (Dataset → Dataset → Mtx × Mtx))
    (cluster_metrics : List CMetric) (spaces : List String) :
    Except PyError (List (String × Table)) :=
  if splitters.length = spaces.length then
    match runFoldsSeq data cm ks fold_fx ground_truth cluster_metrics spaces
        (listProd splitters) st with
    | .error e => .error e
    | .ok (results, _) => aggregate results
  else .error (.typeError "len() takes exactly one argument (2 given)")

/-- Equality-based lookup in an index-tagged result list. -/
def lookupNat {α : Type} : List (Nat × α) → Nat → Option α
  | [], _ => none
  | p :: rest, i => if p.1 = i then some p.2 else lookupNat rest i

/-- Parallel dispatch (`n_jobs>1`): each task's arguments are pickled at dispatch
time, so every fold starts from `st0`, the caller method's pre-call state; workers
finish in `completion` order, and the pool returns results indexed by dispatch
order. -/
def runFoldsPar {σ : Type} (data : Dataset) (folds : List (List (Labels × Labels)))
    (cm : CMethod σ) (st0 : σ) (ks : List Nat)
    (fold_fx : Option (Dataset → Dataset → Mtx × Mtx)) (gt : Option Labels)
    (metrics : List CMetric) (spaces : List String) (completion : List Nat) :
    List (Except PyError FoldResult) :=
  let completed := completion.map (fun idx =>
    (idx, (_run_fold data (folds.getD idx []) cm st0 ks fold_fx gt metrics
        spaces).map Prod.fst))
  (List.range folds.length).filterMap (fun idx => lookupNat completed idx)

/-- The orchestrator's join: a fatal error in any fold aborts the whole call. -/
def collectResults : List (Except PyError FoldResult) → Except PyError (List FoldResult)
  | [] => .ok []
  | e :: rest =>
    match e with
    | .error err => .error err
    | .ok r =>
      match collectResults rest with
      | .error err => .error err
      | .ok rs => .ok (r :: rs)

/-- The orchestrator `reproducibility` under parallel dispatch (`n_jobs>1`),
parametrised by the order in which workers complete. -/
def reproducibility_par {σ : Type} (data : Dataset)
    (splitters : List (List (Labels × Labels))) (cm : CMethod σ) (st : σ)
    (ks : List Nat) (ground_truth : Option Labels)
    (fold_fx : Option (Dataset → Dataset → Mtx × Mtx))
    (cluster_metrics : List CMetric) (spaces : List String) (completion : List Nat) :
    Except PyError (List (String × Table)) :=
  if splitters.length = spaces.length then
    match collectResults (runFoldsPar data (listProd splitters) cm st ks fold_fx
        ground_truth cluster_metrics spaces completion) with
    | .error e => .error e
    | .ok results => aggregate results
  else .error (.typeError "len() takes exactly one argument (2 given)")

/-- Modelled from the spec: "A pair of Cluster Method instances is created fresh
per fold (independently initialized, no shared state)" — the orchestrated call in
which every fold's cluster-method pair starts from an independent copy of the
caller-supplied method's state, with no state carried between folds or back to
the caller.  Used as the reference semantics the claim about `_run_fold` and
`reproducibility` is compared against. -/
def reproducibilityFreshSpec {σ : Type} (data : Dataset)
    (splitters : List (List (Labels × Labels))) (cm : CMethod σ) (st : σ)
    (ks : List Nat) (ground_truth : Option Labels)
    (fold_fx : Option (Dataset → Dataset → Mtx × Mtx))
    (cluster_metrics : List CMetric) (spaces : List String) :
    Except PyError (List (String × Table)) :=
  if splitters.length = spaces.length then
    match collectResults ((listProd splitters).map (fun f =>
        (_run_fold data f cm st ks fold_fx ground_truth cluster_metrics
          spaces).map Prod.fst)) with
    | .error e => .error e
    | .ok results => aggregate results
  else .error (.typeError "len() takes exactly one argument (2 given)")

/-- The method state after training in place on matrix `m` for each k in turn
(the cluster method performs no reset between k values). -/
def trainSeq {σ : Type} (cm : CMethod σ) (m : Mtx) (st : σ) (ks : List Nat) : σ :=
  ks.foldl (fun s k => cm.train s m k) st

/-- Reference form of the score row written by the k-loop for one table: starting
at column `i`, write `sc predicted selfLabel k` for each k, where both method
states advance by one training step per k (`s1` on the training matrix, `s2` on
the test matrix) and both predictions are taken on the test matrix. -/
def writeRow {σ : Type} (cm : CMethod σ) (sTr sTe : Mtx)
    (sc : Labels → Labels → Nat → Int) :
    List Int → Nat → List Nat → σ → σ → List Int
  | row, _, [], _, _ => row
  | row, i, k :: rest, s1, s2 =>
    let s1' := cm.train s1 sTr k
    let s2' := cm.train s2 sTe k
    writeRow cm sTr sTe sc
      (row.set i (sc (cm.predict s1' sTe k) (cm.predict s2' sTe k) k))
      (i + 1) rest s1' s2'

/-- Does a string end in the three characters `_gt`? -/
def gtSuffixed (s : String) : Bool :=
  match s.data.reverse with
  | 't' :: 'g' :: '_' :: _ => true
  | _ => false

/-- Membership of the i-th entry of an annotation array in a label set
(the pointwise meaning of `np.in1d`). -/
def memArr (arr : Labels) (s : Labels) (i : Nat) : Bool :=
  decide (arr.getD i 0 ∈ s)

/-- Pointwise training-partition predicate of one zipped constraint on the unit
axis: a `sa` space requires membership of the annotation value in the train set,
any other axis kind imposes nothing on the unit axis. -/
def saTrainOK (data : Dataset) (pr : (Labels × Labels) × (String × String))
    (i : Nat) : Bool :=
  if pr.2.1 = "sa" then memArr ((dfind data.sa pr.2.2).getD []) pr.1.1 i else true

def saTestOK (data : Dataset) (pr : (Labels × Labels) × (String × String))
    (i : Nat) : Bool :=
  if pr.2.1 = "sa" then memArr ((dfind data.sa pr.2.2).getD []) pr.1.2 i else true

def faTrainOK (data : Dataset) (pr : (Labels × Labels) × (String × String))
    (i : Nat) : Bool :=
  if pr.2.1 = "fa" then memArr ((dfind data.fa pr.2.2).getD []) pr.1.1 i else true

def faTestOK (data : Dataset) (pr : (Labels × Labels) × (String × String))
    (i : Nat) : Bool :=
  if pr.2.1 = "fa" then memArr ((dfind data.fa pr.2.2).getD []) pr.1.2 i else true

/-- Concrete stateful cluster method: the state counts `train` calls and
`predict` reports the counter.  A deterministic method whose predictions depend
on how often the object has been trained. -/
def cmCount : CMethod Nat :=
  ⟨fun s _ _ => s + 1, fun s _ _ => [(s : Int)]⟩

/-- Concrete history-free cluster method: `train` ignores the previous state. -/
def cmZero : CMethod Nat :=
  ⟨fun _ _ k => k, fun s _ _ => [(s : Int)]⟩

/-- Concrete metric reporting the head of the predicted label array. -/
def mHead : CMetric := ⟨"m", fun p _ _ _ => p.headD 0⟩

/-- Concrete metric whose own identity already carries the `_gt` suffix. -/
def mGt : CMetric := ⟨"m_gt", fun p _ _ _ => p.headD 0⟩

/-- Two units with one feature, one sample attribute `x`. -/
def dsA : Dataset := ⟨[[1], [2]], [("x", [0, 1])], [], []⟩

/-- One splitter producing two folds over `sa.x`. -/
def splA : List (List (Labels × Labels)) := [[([0], [1]), ([1], [0])]]

/-- Dataset whose dataset-attribute collection `a` carries the key `foo`. -/
def dsB : Dataset := ⟨[[1]], [("x", [0])], [], [("foo", [5])]⟩

/-- Two units and two features with two sample attributes and one feature
attribute, for exercising conjunctive mask composition. -/
def dsC : Dataset :=
  ⟨[[1, 2], [3, 4]], [("x", [0, 1]), ("y", [0, 2])], [("f", [7, 8])], []⟩

theorem dfind_cons {β : Type} (p : String × β) (rest : List (String × β)) (k : String) :
    dfind (p :: rest) k = if p.1 = k then some p.2 else dfind rest k := rfl

theorem dkeys_cons {β : Type} (p : String × β) (rest : List (String × β)) :
    dkeys (p :: rest) = p.1 :: dkeys rest := rfl

theorem dinsert_cons {β : Type} (p : String × β) (rest : List (String × β)) (k : String) (v : β) :
    dinsert (p :: rest) k v =
      if p.1 = k then (k, v) :: rest else p :: dinsert rest k v := rfl

theorem dmodify_cons {β : Type} (p : String × β) (rest : List (String × β)) (k : String)
    (f : β → β) :
    dmodify (p :: rest) k f =
      if p.1 = k then (p.1, f p.2) :: dmodify rest k f else p :: dmodify rest k f := rfl

theorem strAppendGtNe (s : String) : s ≠ s ++ "_gt" := by
  intro h
  have hlen := congrArg (fun t => t.data.length) h
  simp [String.data_append] at hlen

theorem strAppendGtInj {a b : String} (h : a ++ "_gt" = b ++ "_gt") : a = b := by
  have hd := congrArg String.data h
  simp only [String.data_append] at hd
  have h2 := List.append_cancel_right hd
  cases a
  cases b
  exact congrArg String.mk h2

theorem gtSuffixed_append (s : String) : gtSuffixed (s ++ "_gt") = true := by
  have hd : (s ++ "_gt").data = s.data ++ ['_', 'g', 't'] := by
    rw [String.data_append]
  simp [gtSuffixed, hd]

theorem dfind_mem {β : Type} :
    ∀ (d : List (String × β)) (k : String) (v : β), dfind d k = some v → (k, v) ∈ d := by
  intro d
  induction d with
  | nil => intro k v h; simp [dfind] at h
  | cons p rest ih =>
    intro k v h
    rw [dfind_cons] at h
    by_cases hk : p.1 = k
    · rw [if_pos hk] at h
      have hv : p.2 = v := Option.some.inj h
      have hpkv : p = (k, v) := Prod.ext hk hv
      exact hpkv ▸ List.mem_cons_self _ _
    · rw [if_neg hk] at h
      exact List.mem_cons_of_mem _ (ih k v h)

theorem mem_dkeys_dfind {β : Type} :
    ∀ (d : List (String × β)) (k : String), k ∈ dkeys d → ∃ v, dfind d k = some v := by
  intro d
  induction d with
  | nil => intro k h; simp [dkeys] at h
  | cons p rest ih =>
    intro k h
    by_cases hk : p.1 = k
    · exact ⟨p.2, by rw [dfind_cons, if_pos hk]⟩
    · rw [dkeys_cons, List.mem_cons] at h
      rcases h with h | h
      · exact absurd h.symm hk
      · rcases ih k h with ⟨v, hv⟩
        exact ⟨v, by rw [dfind_cons, if_neg hk]; exact hv⟩

theorem dfind_some_mem_dkeys {β : Type} {d : List (String × β)} {k : String} {v : β}
    (h : dfind d k = some v) : k ∈ dkeys d := by
  have := dfind_mem d k v h
  exact List.mem_map_of_mem Prod.fst this

theorem dfind_dinsert {β : Type} :
    ∀ (d : List (String × β)) (k : String) (v : β) (k' : String),
      dfind (dinsert d k v) k' = if k = k' then some v else dfind d k' := by
  intro d
  induction d with
  | nil => intro k v k'; simp [dinsert, dfind]
  | cons p rest ih =>
    intro k v k'
    rw [dinsert_cons]
    by_cases hp : p.1 = k
    · rw [if_pos hp, dfind_cons, dfind_cons]
      by_cases hkk : k = k'
      · simp [hkk]
      · rw [if_neg hkk, if_neg hkk, if_neg (fun h => hkk (hp ▸ h))]
    · rw [if_neg hp, dfind_cons, dfind_cons]
      by_cases hpk : p.1 = k'
      · rw [if_pos hpk, if_neg (fun h : k = k' => hp (h ▸ hpk)), if_pos hpk]
      · rw [if_neg hpk, if_neg hpk, ih]

theorem dkeys_dinsert {β : Type} :
    ∀ (d : List (String × β)) (k : String) (v : β) (k' : String),
      k' ∈ dkeys (dinsert d k v) ↔ k' = k ∨ k' ∈ dkeys d := by
  intro d
  induction d with
  | nil => intro k v k'; simp [dinsert, dkeys]
  | cons p rest ih =>
    intro k v k'
    rw [dinsert_cons]
    by_cases hp : p.1 = k
    · rw [if_pos hp, dkeys_cons, dkeys_cons, List.mem_cons, List.mem_cons]
      constructor
      · rintro (h | h)
        · exact Or.inl h
        · exact Or.inr (Or.inr h)
      · rintro (h | h | h)
        · exact Or.inl h
        · exact Or.inl (h.trans hp)
        · exact Or.inr h
    · rw [if_neg hp, dkeys_cons, dkeys_cons, List.mem_cons, List.mem_cons, ih]
      tauto

theorem dkeys_dmodify {β : Type} :
    ∀ (d : List (String × β)) (k : String) (f : β → β), dkeys (dmodify d k f) = dkeys d := by
  intro d
  induction d with
  | nil => intro k f; simp [dmodify]
  | cons p rest ih =>
    intro k f
    rw [dmodify_cons]
    by_cases hp : p.1 = k
    · rw [if_pos hp, dkeys_cons, dkeys_cons, ih]
    · rw [if_neg hp, dkeys_cons, dkeys_cons, ih]

theorem dfind_dmodify_self {β : Type} :
    ∀ (d : List (String × β)) (k : String) (f : β → β),
      dfind (dmodify d k f) k = (dfind d k).map f := by
  intro d
  induction d with
  | nil => intro k f; simp [dmodify, dfind]
  | cons p rest ih =>
    intro k f
    rw [dmodify_cons]
    by_cases hp : p.1 = k
    · rw [if_pos hp, dfind_cons, dfind_cons, if_pos hp, if_pos hp]
      rfl
    · rw [if_neg hp, dfind_cons, dfind_cons, if_neg hp, if_neg hp, ih]

theorem dfind_dmodify_ne {β : Type} :
    ∀ (d : List (String × β)) (k : String) (f : β → β) (k' : String), k' ≠ k →
      dfind (dmodify d k f) k' = dfind d k' := by
  intro d
  induction d with
  | nil => intro k f k' _; simp [dmodify]
  | cons p rest ih =>
    intro k f k' hne
    rw [dmodify_cons]
    by_cases hp : p.1 = k
    · have hpk : ¬ p.1 = k' := fun h => hne ((h ▸ hp : k' = k))
      rw [if_pos hp, dfind_cons, dfind_cons, if_neg hpk, if_neg hpk, ih _ _ _ hne]
    · rw [if_neg hp, dfind_cons, dfind_cons]
      by_cases hpk : p.1 = k'
      · rw [if_pos hpk, if_pos hpk]
      · rw [if_neg hpk, if_neg hpk, ih _ _ _ hne]

theorem dmodify_mem {β : Type} :
    ∀ (d : List (String × β)) (k : String) (f : β → β) (p : String × β),
      p ∈ dmodify d k f → ∃ q ∈ d, p = q ∨ p = (q.1, f q.2) := by
  intro d
  induction d with
  | nil => intro k f p h; simp [dmodify] at h
  | cons q rest ih =>
    intro k f p h
    rw [dmodify_cons] at h
    by_cases hq : q.1 = k
    · rw [if_pos hq, List.mem_cons] at h
      rcases h with h | h
      · exact ⟨q, List.mem_cons_self _ _, Or.inr h⟩
      · rcases ih k f p h with ⟨q', hq', hh⟩
        exact ⟨q', List.mem_cons_of_mem _ hq', hh⟩
    · rw [if_neg hq, List.mem_cons] at h
      rcases h with h | h
      · exact ⟨q, List.mem_cons_self _ _, Or.inl h⟩
      · rcases ih k f p h with ⟨q', hq', hh⟩
        exact ⟨q', List.mem_cons_of_mem _ hq', hh⟩

theorem dinsert_mem {β : Type} :
    ∀ (d : List (String × β)) (k : String) (v : β) (p : String × β),
      p ∈ dinsert d k v → p = (k, v) ∨ p ∈ d := by
  intro d
  induction d with
  | nil => intro k v p h; simpa [dinsert] using h
  | cons q rest ih =>
    intro k v p h
    rw [dinsert_cons] at h
    by_cases hq : q.1 = k
    · rw [if_pos hq, List.mem_cons] at h
      rcases h with h | h
      · exact Or.inl h
      · exact Or.inr (List.mem_cons_of_mem _ h)
    · rw [if_neg hq, List.mem_cons] at h
      rcases h with h | h
      · exact Or.inr (h ▸ List.mem_cons_self _ _)
      · rcases ih k v p h with h | h
        · exact Or.inl h
        · exact Or.inr (List.mem_cons_of_mem _ h)

theorem setScore_dfind_self (d : FoldResult) (key : String) (i : Nat) (v : Int) :
    dfind (setScore d key i v) key = (dfind d key).map (fun t => (t.1, t.2.set i v)) :=
  dfind_dmodify_self d key _

theorem setScore_dfind_ne (d : FoldResult) (key : String) (i : Nat) (v : Int)
    (key' : String) (h : key' ≠ key) : dfind (setScore d key i v) key' = dfind d key' :=
  dfind_dmodify_ne d key _ key' h

theorem setScore_dkeys (d : FoldResult) (key : String) (i : Nat) (v : Int) :
    dkeys (setScore d key i v) = dkeys d :=
  dkeys_dmodify d key _

theorem recordScores_cons_none (sTe : Mtx) (predicted testLabel : Labels) (i k : Nat)
    (mt : CMetric) (rest : List CMetric) (d : FoldResult) :
    recordScores none sTe predicted testLabel i k (mt :: rest) d =
      recordScores none sTe predicted testLabel i k rest
        (setScore d mt.name i (mt.score predicted testLabel sTe k)) := rfl

theorem recordScores_cons_some (g : Labels) (sTe : Mtx) (predicted testLabel : Labels)
    (i k : Nat) (mt : CMetric) (rest : List CMetric) (d : FoldResult) :
    recordScores (some g) sTe predicted testLabel i k (mt :: rest) d =
      recordScores (some g) sTe predicted testLabel i k rest
        (setScore (setScore d mt.name i (mt.score predicted testLabel sTe k))
          (mt.name ++ "_gt") i (mt.score predicted g sTe k)) := rfl

theorem recordScores_dfind_other (gt : Option Labels) (sTe : Mtx)
    (predicted testLabel : Labels) (i k : Nat) (key : String) :
    ∀ (l : List CMetric) (d : FoldResult),
      (∀ mt ∈ l, mt.name ≠ key ∧ mt.name ++ "_gt" ≠ key) →
      dfind (recordScores gt sTe predicted testLabel i k l d) key = dfind d key := by
  intro l
  induction l with
  | nil => intro d _; rfl
  | cons mt rest ih =>
    intro d hl
    have hmt := hl mt (List.mem_cons_self _ _)
    have hrest : ∀ mt' ∈ rest, mt'.name ≠ key ∧ mt'.name ++ "_gt" ≠ key :=
      fun mt' h => hl mt' (List.mem_cons_of_mem _ h)
    show dfind (recordScores gt sTe predicted testLabel i k rest _) key = dfind d key
    rw [ih _ hrest]
    cases gt with
    | none =>
      exact setScore_dfind_ne _ _ _ _ _ (fun h => hmt.1 h.symm)
    | some g =>
      rw [setScore_dfind_ne _ _ _ _ _ (fun h => hmt.2 h.symm)]
      exact setScore_dfind_ne _ _ _ _ _ (fun h => hmt.1 h.symm)

theorem recordScores_dfind_self (gt : Option Labels) (sTe : Mtx)
    (predicted testLabel : Labels) (i k : Nat) (metric : CMetric) :
    ∀ (l : List CMetric) (d : FoldResult), metric ∈ l →
      (l.map CMetric.name).Nodup →
      (∀ mt ∈ l, mt.name ++ "_gt" ≠ metric.name) →
      dfind (recordScores gt sTe predicted testLabel i k l d) metric.name =
        (dfind d metric.name).map
          (fun t => (t.1, t.2.set i (metric.score predicted testLabel sTe k))) := by
  intro l
  induction l with
  | nil => intro d hm; simp at hm
  | cons mt rest ih =>
    intro d hm hnd hgt
    have hndr : (rest.map CMetric.name).Nodup := (List.nodup_cons.mp hnd).2
    have hhead : mt.name ∉ rest.map CMetric.name := (List.nodup_cons.mp hnd).1
    have hgtr : ∀ mt' ∈ rest, mt'.name ++ "_gt" ≠ metric.name :=
      fun mt' h => hgt mt' (List.mem_cons_of_mem _ h)
    rcases List.mem_cons.mp hm with heq | hmem
    · subst heq
      have hpres : ∀ mt' ∈ rest,
          mt'.name ≠ metric.name ∧ mt'.name ++ "_gt" ≠ metric.name := by
        intro mt' h
        refine ⟨fun hn => hhead ?_, hgtr mt' h⟩
        rw [← hn]
        exact List.mem_map_of_mem CMetric.name h
      cases gt with
      | none =>
        rw [recordScores_cons_none]
        rw [recordScores_dfind_other none sTe predicted testLabel i k metric.name
          rest _ hpres]
        exact setScore_dfind_self _ _ _ _
      | some g =>
        rw [recordScores_cons_some]
        rw [recordScores_dfind_other (some g) sTe predicted testLabel i k metric.name
          rest _ hpres]
        rw [setScore_dfind_ne _ _ _ _ _ (strAppendGtNe metric.name)]
        exact setScore_dfind_self _ _ _ _
    · have hne : mt.name ≠ metric.name := by
        intro hn
        exact hhead (hn ▸ List.mem_map_of_mem CMetric.name hmem)
      cases gt with
      | none =>
        rw [recordScores_cons_none, ih _ hmem hndr hgtr]
        rw [setScore_dfind_ne _ _ _ _ _ (fun h => hne h.symm)]
      | some g =>
        rw [recordScores_cons_some, ih _ hmem hndr hgtr]
        rw [setScore_dfind_ne _ _ _ _ _
          (fun h => hgt mt (List.mem_cons_self _ _) h.symm)]
        rw [setScore_dfind_ne _ _ _ _ _ (fun h => hne h.symm)]

theorem recordScores_dfind_gt (g : Labels) (sTe : Mtx)
    (predicted testLabel : Labels) (i k : Nat) (metric : CMetric) :
    ∀ (l : List CMetric) (d : FoldResult), metric ∈ l →
      (l.map CMetric.name).Nodup →
      (∀ mt ∈ l, mt.name ≠ metric.name ++ "_gt") →
      dfind (recordScores (some g) sTe predicted testLabel i k l d)
          (metric.name ++ "_gt") =
        (dfind d (metric.name ++ "_gt")).map
          (fun t => (t.1, t.2.set i (metric.score predicted g sTe k))) := by
  intro l
  induction l with
  | nil => intro d hm; simp at hm
  | cons mt rest ih =>
    intro d hm hnd hng
    have hndr : (rest.map CMetric.name).Nodup := (List.nodup_cons.mp hnd).2
    have hhead : mt.name ∉ rest.map CMetric.name := (List.nodup_cons.mp hnd).1
    have hngr : ∀ mt' ∈ rest, mt'.name ≠ metric.name ++ "_gt" :=
      fun mt' h => hng mt' (List.mem_cons_of_mem _ h)
    rcases List.mem_cons.mp hm with heq | hmem
    · subst heq
      have hpres : ∀ mt' ∈ rest,
          mt'.name ≠ metric.name ++ "_gt" ∧
          mt'.name ++ "_gt" ≠ metric.name ++ "_gt" := by
        intro mt' h
        refine ⟨hngr mt' h, fun hn => hhead ?_⟩
        rw [← strAppendGtInj hn]
        exact List.mem_map_of_mem CMetric.name h
      rw [recordScores_cons_some]
      rw [recordScores_dfind_other (some g) sTe predicted testLabel i k
        (metric.name ++ "_gt") rest _ hpres]
      rw [setScore_dfind_self _ _ _ _]
      rw [setScore_dfind_ne _ _ _ _ _ (Ne.symm (strAppendGtNe metric.name))]
    · have hne : mt.name ≠ metric.name := by
        intro hn
        exact hhead (hn ▸ List.mem_map_of_mem CMetric.name hmem)
      rw [recordScores_cons_some, ih _ hmem hndr hngr]
      rw [setScore_dfind_ne _ _ _ _ _ (fun h => hne (strAppendGtInj h).symm)]
      rw [setScore_dfind_ne _ _ _ _ _
        (fun h => hng mt (List.mem_cons_self _ _) h.symm)]
theorem recordScores_dkeys (gt : Option Labels) (sTe : Mtx)
    (predicted testLabel : Labels) (i k : Nat) :
    ∀ (l : List CMetric) (d : FoldResult),
      dkeys (recordScores gt sTe predicted testLabel i k l d) = dkeys d := by
  intro l
  induction l with
  | nil => intro d; rfl
  | cons mt rest ih =>
    intro d
    show dkeys (recordScores gt sTe predicted testLabel i k rest _) = dkeys d
    rw [ih]
    cases gt with
    | none => exact setScore_dkeys _ _ _ _
    | some g => rw [setScore_dkeys, setScore_dkeys]

theorem recordScores_mem (gt : Option Labels) (sTe : Mtx)
    (predicted testLabel : Labels) (i k : Nat) (P : Table → Prop)
    (hP : ∀ t v j, P t → P (t.1, t.2.set j v)) :
    ∀ (l : List CMetric) (d : FoldResult), (∀ p ∈ d, P p.2) →
      ∀ p ∈ recordScores gt sTe predicted testLabel i k l d, P p.2 := by
  intro l
  induction l with
  | nil => intro d hd; exact hd
  | cons mt rest ih =>
    intro d hd
    have hstep : ∀ (key : String) (v : Int) (d' : FoldResult), (∀ p ∈ d', P p.2) →
        ∀ p ∈ setScore d' key i v, P p.2 := by
      intro key v d' hd' p hp
      rcases dmodify_mem d' key _ p hp with ⟨q, hq, hh | hh⟩
      · exact hh ▸ hd' q hq
      · rw [hh]
        exact hP q.2 v i (hd' q hq)
    apply ih
    cases gt with
    | none => exact hstep mt.name _ d hd
    | some g => exact hstep _ _ _ (hstep mt.name _ d hd)

theorem writeRow_cons {σ : Type} (cm : CMethod σ) (sTr sTe : Mtx)
    (sc : Labels → Labels → Nat → Int) (row : List Int) (i : Nat) (k : Nat)
    (rest : List Nat) (s1 s2 : σ) :
    writeRow cm sTr sTe sc row i (k :: rest) s1 s2 =
      writeRow cm sTr sTe sc
        (row.set i (sc (cm.predict (cm.train s1 sTr k) sTe k)
          (cm.predict (cm.train s2 sTe k) sTe k) k))
        (i + 1) rest (cm.train s1 sTr k) (cm.train s2 sTe k) := rfl

theorem writeRow_length {σ : Type} (cm : CMethod σ) (sTr sTe : Mtx)
    (sc : Labels → Labels → Nat → Int) :
    ∀ (ks : List Nat) (row : List Int) (i : Nat) (s1 s2 : σ),
      (writeRow cm sTr sTe sc row i ks s1 s2).length = row.length := by
  intro ks
  induction ks with
  | nil => intro row i s1 s2; rfl
  | cons k rest ih =>
    intro row i s1 s2
    rw [writeRow_cons, ih, List.length_set]

theorem writeRow_get_lt {σ : Type} (cm : CMethod σ) (sTr sTe : Mtx)
    (sc : Labels → Labels → Nat → Int) :
    ∀ (ks : List Nat) (row : List Int) (i j : Nat) (s1 s2 : σ), j < i →
      (writeRow cm sTr sTe sc row i ks s1 s2)[j]? = row[j]? := by
  intro ks
  induction ks with
  | nil => intro row i j s1 s2 _; rfl
  | cons k rest ih =>
    intro row i j s1 s2 hj
    rw [writeRow_cons, ih _ _ _ _ _ (Nat.lt_succ_of_lt hj)]
    exact List.getElem?_set_ne (Nat.ne_of_gt hj)

theorem writeRow_get {σ : Type} (cm : CMethod σ) (sTr sTe : Mtx)
    (sc : Labels → Labels → Nat → Int) :
    ∀ (ks : List Nat) (i : Nat) (row : List Int) (s1 s2 : σ) (j : Nat),
      j < ks.length → i + ks.length ≤ row.length →
      (writeRow cm sTr sTe sc row i ks s1 s2)[i + j]? =
        some (sc (cm.predict (trainSeq cm sTr s1 (ks.take (j + 1))) sTe (ks.getD j 0))
                 (cm.predict (trainSeq cm sTe s2 (ks.take (j + 1))) sTe (ks.getD j 0))
                 (ks.getD j 0)) := by
  intro ks
  induction ks with
  | nil => intro i row s1 s2 j hj _; simp at hj
  | cons k rest ih =>
    intro i row s1 s2 j hj hlen
    rw [writeRow_cons]
    cases j with
    | zero =>
      have h0 : i + 0 = i := Nat.add_zero i
      rw [h0]
      rw [writeRow_get_lt cm sTr sTe sc rest _ (i + 1) i _ _ (Nat.lt_succ_self i)]
      have hi : i < row.length := by
        simp [List.length_cons] at hlen
        omega
      rw [List.getElem?_set_self hi]
      rfl
    | succ j' =>
      have hidx : i + (j' + 1) = (i + 1) + j' := by omega
      rw [hidx]
      exact ih (i + 1) _ _ _ j' (Nat.lt_of_succ_lt_succ hj)
        (by rw [List.length_set]; simp [List.length_cons] at hlen; omega)

theorem trainSeq_nil {σ : Type} (cm : CMethod σ) (m : Mtx) (st : σ) :
    trainSeq cm m st [] = st := rfl

theorem trainSeq_cons {σ : Type} (cm : CMethod σ) (m : Mtx) (st : σ) (k : Nat)
    (ks : List Nat) : trainSeq cm m st (k :: ks) = trainSeq cm m (cm.train st m k) ks := rfl

theorem kLoopAux_cons {σ : Type} (cm : CMethod σ) (metrics : List CMetric)
    (gt : Option Labels) (sTr sTe : Mtx) (k : Nat) (rest : List Nat) (i : Nat)
    (st : KState σ) :
    kLoopAux cm metrics gt sTr sTe (k :: rest) i st =
      kLoopAux cm metrics gt sTr sTe rest (i + 1)
        ⟨recordScores gt sTe (cm.predict (cm.train st.stTrain sTr k) sTe k)
            (cm.predict (cm.train st.stTest sTe k) sTe k) i k metrics st.res,
          cm.train st.stTrain sTr k, cm.train st.stTest sTe k⟩ := rfl

theorem kLoopAux_dfind_self {σ : Type} (cm : CMethod σ) (metrics : List CMetric)
    (gt : Option Labels) (sTr sTe : Mtx) (metric : CMetric)
    (hm : metric ∈ metrics) (hnd : (metrics.map CMetric.name).Nodup)
    (hgt : ∀ mt ∈ metrics, mt.name ++ "_gt" ≠ metric.name) :
    ∀ (ks : List Nat) (i : Nat) (st : KState σ) (r0 : List Nat) (row : List Int),
      dfind st.res metric.name = some (r0, row) →
      dfind (kLoopAux cm metrics gt sTr sTe ks i st).res metric.name =
        some (r0, writeRow cm sTr sTe (fun p tl k => metric.score p tl sTe k)
          row i ks st.stTrain st.stTest) := by
  intro ks
  induction ks with
  | nil => intro i st r0 row h; exact h
  | cons k rest ih =>
    intro i st r0 row h
    rw [kLoopAux_cons, writeRow_cons]
    apply ih
    rw [recordScores_dfind_self gt sTe _ _ i k metric metrics _ hm hnd hgt, h]
    rfl

theorem kLoopAux_dfind_gt {σ : Type} (cm : CMethod σ) (metrics : List CMetric)
    (g : Labels) (sTr sTe : Mtx) (metric : CMetric)
    (hm : metric ∈ metrics) (hnd : (metrics.map CMetric.name).Nodup)
    (hng : ∀ mt ∈ metrics, mt.name ≠ metric.name ++ "_gt") :
    ∀ (ks : List Nat) (i : Nat) (st : KState σ) (r0 : List Nat) (row : List Int),
      dfind st.res (metric.name ++ "_gt") = some (r0, row) →
      dfind (kLoopAux cm metrics (some g) sTr sTe ks i st).res (metric.name ++ "_gt") =
        some (r0, writeRow cm sTr sTe (fun p _ k => metric.score p g sTe k)
          row i ks st.stTrain st.stTest) := by
  intro ks
  induction ks with
  | nil => intro i st r0 row h; exact h
  | cons k rest ih =>
    intro i st r0 row h
    rw [kLoopAux_cons, writeRow_cons]
    apply ih
    rw [recordScores_dfind_gt g sTe _ _ i k metric metrics _ hm hnd hng, h]
    rfl

theorem kLoopAux_keys {σ : Type} (cm : CMethod σ) (metrics : List CMetric)
    (gt : Option Labels) (sTr sTe : Mtx) :
    ∀ (ks : List Nat) (i : Nat) (st : KState σ),
      dkeys (kLoopAux cm metrics gt sTr sTe ks i st).res = dkeys st.res := by
  intro ks
  induction ks with
  | nil => intro i st; rfl
  | cons k rest ih =>
    intro i st
    rw [kLoopAux_cons, ih]
    exact recordScores_dkeys gt sTe _ _ i k metrics st.res

theorem kLoopAux_entries {σ : Type} (cm : CMethod σ) (metrics : List CMetric)
    (gt : Option Labels) (sTr sTe : Mtx) (P : Table → Prop)
    (hP : ∀ t v j, P t → P (t.1, t.2.set j v)) :
    ∀ (ks : List Nat) (i : Nat) (st : KState σ), (∀ p ∈ st.res, P p.2) →
      ∀ p ∈ (kLoopAux cm metrics gt sTr sTe ks i st).res, P p.2 := by
  intro ks
  induction ks with
  | nil => intro i st h; exact h
  | cons k rest ih =>
    intro i st h
    rw [kLoopAux_cons]
    apply ih
    exact recordScores_mem gt sTe _ _ i k P hP metrics st.res h

theorem kLoopAux_stTest {σ : Type} (cm : CMethod σ) (metrics : List CMetric)
    (gt : Option Labels) (sTr sTe : Mtx) :
    ∀ (ks : List Nat) (i : Nat) (st : KState σ),
      (kLoopAux cm metrics gt sTr sTe ks i st).stTest = trainSeq cm sTe st.stTest ks := by
  intro ks
  induction ks with
  | nil => intro i st; rfl
  | cons k rest ih =>
    intro i st
    rw [kLoopAux_cons, ih, trainSeq_cons]

theorem kLoopAux_stTrain {σ : Type} (cm : CMethod σ) (metrics : List CMetric)
    (gt : Option Labels) (sTr sTe : Mtx) :
    ∀ (ks : List Nat) (i : Nat) (st : KState σ),
      (kLoopAux cm metrics gt sTr sTe ks i st).stTrain = trainSeq cm sTr st.stTrain ks := by
  intro ks
  induction ks with
  | nil => intro i st; rfl
  | cons k rest ih =>
    intro i st
    rw [kLoopAux_cons, ih, trainSeq_cons]

theorem initResult_mem (ks : List Nat) (gt : Option Labels) :
    ∀ (l : List CMetric) (d : FoldResult) (p : String × Table),
      p ∈ initResult ks gt l d → p ∈ d ∨ p.2 = (ks, List.replicate ks.length 0) := by
  intro l
  induction l with
  | nil => intro d p h; exact Or.inl h
  | cons mt rest ih =>
    intro d p h
    cases gt with
    | none =>
      rcases ih _ p h with hh | hh
      · rcases dinsert_mem d mt.name _ p hh with hh2 | hh2
        · exact Or.inr (by rw [hh2])
        · exact Or.inl hh2
      · exact Or.inr hh
    | some g =>
      rcases ih _ p h with hh | hh
      · rcases dinsert_mem _ (mt.name ++ "_gt") _ p hh with hh2 | hh2
        · exact Or.inr (by rw [hh2])
        · rcases dinsert_mem d mt.name _ p hh2 with hh3 | hh3
          · exact Or.inr (by rw [hh3])
          · exact Or.inl hh3
      · exact Or.inr hh

theorem initResult_keys (ks : List Nat) (gt : Option Labels) :
    ∀ (l : List CMetric) (d : FoldResult) (key : String),
      key ∈ dkeys (initResult ks gt l d) ↔
        key ∈ dkeys d ∨
          ∃ mt ∈ l, key = mt.name ∨ (gt.isSome ∧ key = mt.name ++ "_gt") := by
  intro l
  induction l with
  | nil => intro d key; simp [initResult]
  | cons mt rest ih =>
    intro d key
    cases gt with
    | none =>
      show key ∈ dkeys (initResult ks none rest (dinsert d mt.name _)) ↔ _
      rw [ih, dkeys_dinsert]
      simp only [Option.isSome_none, Bool.false_eq_true, false_and, or_false,
        List.mem_cons]
      constructor
      · rintro ((h | h) | ⟨mt', hmt', h⟩)
        · exact Or.inr ⟨mt, Or.inl rfl, h⟩
        · exact Or.inl h
        · exact Or.inr ⟨mt', Or.inr hmt', h⟩
      · rintro (h | ⟨mt', hmt' | hmt', h⟩)
        · exact Or.inl (Or.inr h)
        · exact Or.inl (Or.inl (hmt' ▸ h))
        · exact Or.inr ⟨mt', hmt', h⟩
    | some g =>
      show key ∈ dkeys (initResult ks (some g) rest
        (dinsert (dinsert d mt.name _) (mt.name ++ "_gt") _)) ↔ _
      rw [ih, dkeys_dinsert, dkeys_dinsert]
      simp only [Option.isSome_some, true_and, List.mem_cons]
      constructor
      · rintro ((h | h | h) | ⟨mt', hmt', h⟩)
        · exact Or.inr ⟨mt, Or.inl rfl, Or.inr h⟩
        · exact Or.inr ⟨mt, Or.inl rfl, Or.inl h⟩
        · exact Or.inl h
        · exact Or.inr ⟨mt', Or.inr hmt', h⟩
      · rintro (h | ⟨mt', hmt' | hmt', h⟩)
        · exact Or.inl (Or.inr (Or.inr h))
        · rcases h with h | h
          · exact Or.inl (Or.inr (Or.inl (hmt' ▸ h)))
          · exact Or.inl (Or.inl (hmt' ▸ h))
        · exact Or.inr ⟨mt', hmt', h⟩

theorem initResult_dfind (ks : List Nat) (gt : Option Labels) (l : List CMetric)
    (key : String) (h : key ∈ dkeys (initResult ks gt l [])) :
    dfind (initResult ks gt l []) key = some (ks, List.replicate ks.length 0) := by
  rcases mem_dkeys_dfind _ key h with ⟨v, hv⟩
  have hmem := dfind_mem _ key v hv
  rcases initResult_mem ks gt l [] (key, v) hmem with hh | hh
  · simp at hh
  · rw [hv]
    exact congrArg some hh

theorem kLoopAux_cons_mk {σ : Type} (cm : CMethod σ) (metrics : List CMetric)
    (gt : Option Labels) (sTr sTe : Mtx) (k : Nat) (rest : List Nat) (i : Nat)
    (d : FoldResult) (s1 s2 : σ) :
    kLoopAux cm metrics gt sTr sTe (k :: rest) i ⟨d, s1, s2⟩ =
      kLoopAux cm metrics gt sTr sTe rest (i + 1)
        ⟨recordScores gt sTe (cm.predict (cm.train s1 sTr k) sTe k)
            (cm.predict (cm.train s2 sTe k) sTe k) i k metrics d,
          cm.train s1 sTr k, cm.train s2 sTe k⟩ := rfl

theorem kLoopAux_state_free {σ : Type} (cm : CMethod σ) (metrics : List CMetric)
    (gt : Option Labels) (sTr sTe : Mtx)
    (htf : ∀ (s s' : σ) (m : Mtx) (k : Nat), cm.train s m k = cm.train s' m k) :
    ∀ (ks : List Nat) (i : Nat) (d : FoldResult) (s s' : σ),
      (kLoopAux cm metrics gt sTr sTe ks i ⟨d, s, s⟩).res =
        (kLoopAux cm metrics gt sTr sTe ks i ⟨d, s', s'⟩).res := by
  intro ks
  cases ks with
  | nil => intro i d s s'; rfl
  | cons k rest =>
    intro i d s s'
    rw [kLoopAux_cons_mk, kLoopAux_cons_mk, htf s s' sTr k, htf s s' sTe k]

theorem run_fold_eq_ok {σ : Type} (data : Dataset) (split : List (Labels × Labels))
    (cm : CMethod σ) (st : σ) (ks : List Nat)
    (fold_fx : Option (Dataset → Dataset → Mtx × Mtx)) (gt : Option Labels)
    (metrics : List CMetric) (spaces : List String) (pr : Mtx × Mtx)
    (h : foldSetup data split fold_fx spaces = .ok pr) :
    _run_fold data split cm st ks fold_fx gt metrics spaces =
      .ok ((kLoopAux cm metrics gt pr.1 pr.2 ks 0
            ⟨initResult ks gt metrics [], st, st⟩).res,
          (kLoopAux cm metrics gt pr.1 pr.2 ks 0
            ⟨initResult ks gt metrics [], st, st⟩).stTrain) := by
  unfold _run_fold
  rw [h]

theorem run_fold_eq_error {σ : Type} (data : Dataset) (split : List (Labels × Labels))
    (cm : CMethod σ) (st : σ) (ks : List Nat)
    (fold_fx : Option (Dataset → Dataset → Mtx × Mtx)) (gt : Option Labels)
    (metrics : List CMetric) (spaces : List String) (e : PyError)
    (h : foldSetup data split fold_fx spaces = .error e) :
    _run_fold data split cm st ks fold_fx gt metrics spaces = .error e := by
  unfold _run_fold
  rw [h]

theorem run_fold_shape {σ : Type} (data : Dataset) (split : List (Labels × Labels))
    (cm : CMethod σ) (st : σ) (ks : List Nat)
    (fold_fx : Option (Dataset → Dataset → Mtx × Mtx)) (gt : Option Labels)
    (metrics : List CMetric) (spaces : List String) (r : FoldResult) (s : σ)
    (h : _run_fold data split cm st ks fold_fx gt metrics spaces = .ok (r, s)) :
    (∀ p ∈ r, p.2.1 = ks ∧ p.2.2.length = ks.length) ∧
      dkeys r = dkeys (initResult ks gt metrics []) := by
  unfold _run_fold at h
  cases hs : foldSetup data split fold_fx spaces with
  | error e => rw [hs] at h; exact absurd h (by simp)
  | ok pr =>
    rw [hs] at h
    have hr : r = (kLoopAux cm metrics gt pr.1 pr.2 ks 0
        ⟨initResult ks gt metrics [], st, st⟩).res := by
      have := Except.ok.inj h
      exact (congrArg Prod.fst this).symm
    constructor
    · rw [hr]
      apply kLoopAux_entries cm metrics gt pr.1 pr.2
        (fun t => t.1 = ks ∧ t.2.length = ks.length)
        (fun t v j ht => ⟨ht.1, by rw [List.length_set]; exact ht.2⟩)
      intro p hp
      rcases initResult_mem ks gt metrics [] p hp with hh | hh
      · simp at hh
      · rw [hh]
        exact ⟨rfl, List.length_replicate _ _⟩
    · rw [hr, kLoopAux_keys]

theorem run_fold_state_free {σ : Type} (data : Dataset) (split : List (Labels × Labels))
    (cm : CMethod σ) (ks : List Nat)
    (fold_fx : Option (Dataset → Dataset → Mtx × Mtx)) (gt : Option Labels)
    (metrics : List CMetric) (spaces : List String)
    (htf : ∀ (s s' : σ) (m : Mtx) (k : Nat), cm.train s m k = cm.train s' m k)
    (st st' : σ) :
    (_run_fold data split cm st ks fold_fx gt metrics spaces).map Prod.fst =
      (_run_fold data split cm st' ks fold_fx gt metrics spaces).map Prod.fst := by
  unfold _run_fold
  cases hs : foldSetup data split fold_fx spaces with
  | error e => rfl
  | ok pr =>
    simp only [Except.map]
    rw [kLoopAux_state_free cm metrics gt pr.1 pr.2 htf ks 0 _ st st']

theorem collectResults_cons_ok (r : FoldResult) (xs : List (Except PyError FoldResult)) :
    collectResults (.ok r :: xs) =
      match collectResults xs with
      | .error err => .error err
      | .ok rs => .ok (r :: rs) := rfl

theorem collectResults_cons_error (e : PyError) (xs : List (Except PyError FoldResult)) :
    collectResults (.error e :: xs) = .error e := rfl

theorem runFoldsSeq_cons {σ : Type} (data : Dataset) (cm : CMethod σ)
    (ks : List Nat) (fold_fx : Option (Dataset → Dataset → Mtx × Mtx))
    (gt : Option Labels) (metrics : List CMetric) (spaces : List String)
    (f : List (Labels × Labels)) (rest : List (List (Labels × Labels))) (st : σ) :
    runFoldsSeq data cm ks fold_fx gt metrics spaces (f :: rest) st =
      match _run_fold data f cm st ks fold_fx gt metrics spaces with
      | .error e => .error e
      | .ok (r, st') =>
        match runFoldsSeq data cm ks fold_fx gt metrics spaces rest st' with
        | .error e => .error e
        | .ok (rs, st'') => Except.ok (r :: rs, st'') := rfl

theorem runFoldsSeq_cons_error {σ : Type} (data : Dataset) (cm : CMethod σ)
    (ks : List Nat) (fold_fx : Option (Dataset → Dataset → Mtx × Mtx))
    (gt : Option Labels) (metrics : List CMetric) (spaces : List String)
    (f : List (Labels × Labels)) (rest : List (List (Labels × Labels))) (st : σ)
    (e : PyError) (h1 : _run_fold data f cm st ks fold_fx gt metrics spaces = .error e) :
    runFoldsSeq data cm ks fold_fx gt metrics spaces (f :: rest) st = .error e := by
  rw [runFoldsSeq_cons, h1]

theorem runFoldsSeq_cons_ok {σ : Type} (data : Dataset) (cm : CMethod σ)
    (ks : List Nat) (fold_fx : Option (Dataset → Dataset → Mtx × Mtx))
    (gt : Option Labels) (metrics : List CMetric) (spaces : List String)
    (f : List (Labels × Labels)) (rest : List (List (Labels × Labels))) (st : σ)
    (r1 : FoldResult) (s1 : σ)
    (h1 : _run_fold data f cm st ks fold_fx gt metrics spaces = .ok (r1, s1)) :
    runFoldsSeq data cm ks fold_fx gt metrics spaces (f :: rest) st =
      match runFoldsSeq data cm ks fold_fx gt metrics spaces rest s1 with
      | .error e => .error e
      | .ok (rs, st'') => Except.ok (r1 :: rs, st'') := by
  rw [runFoldsSeq_cons, h1]

theorem runFoldsSeq_state_free {σ : Type} (data : Dataset) (cm : CMethod σ)
    (ks : List Nat) (fold_fx : Option (Dataset → Dataset → Mtx × Mtx))
    (gt : Option Labels) (metrics : List CMetric) (spaces : List String)
    (htf : ∀ (s s' : σ) (m : Mtx) (k : Nat), cm.train s m k = cm.train s' m k)
    (st0 : σ) :
    ∀ (folds : List (List (Labels × Labels))) (st : σ),
      (runFoldsSeq data cm ks fold_fx gt metrics spaces folds st).map Prod.fst =
        collectResults (folds.map (fun f =>
          (_run_fold data f cm st0 ks fold_fx gt metrics spaces).map Prod.fst)) := by
  intro folds
  induction folds with
  | nil => intro st; rfl
  | cons f rest ih =>
    intro st
    have hfst := run_fold_state_free data f cm ks fold_fx gt metrics spaces htf st st0
    simp only [List.map_cons]
    cases h1 : _run_fold data f cm st ks fold_fx gt metrics spaces with
    | error e =>
      rw [h1] at hfst
      rw [← hfst]
      have hL := runFoldsSeq_cons_error data cm ks fold_fx gt metrics spaces
        f rest st e h1
      rw [hL]
      rfl
    | ok rs1 =>
      obtain ⟨r1, s1⟩ := rs1
      rw [h1] at hfst
      rw [← hfst]
      have hL := runFoldsSeq_cons_ok data cm ks fold_fx gt metrics spaces
        f rest st r1 s1 h1
      rw [hL]
      have hhead : (Except.map Prod.fst
          (Except.ok (r1, s1) : Except PyError (FoldResult × σ))) = Except.ok r1 := rfl
      rw [hhead, collectResults_cons_ok, ← ih s1]
      cases h2 : runFoldsSeq data cm ks fold_fx gt metrics spaces rest s1 with
      | error e => rfl
      | ok pr2 => rfl

theorem runFoldsSeq_length {σ : Type} (data : Dataset) (cm : CMethod σ)
    (ks : List Nat) (fold_fx : Option (Dataset → Dataset → Mtx × Mtx))
    (gt : Option Labels) (metrics : List CMetric) (spaces : List String) :
    ∀ (folds : List (List (Labels × Labels))) (st : σ) (results : List FoldResult)
      (st' : σ),
      runFoldsSeq data cm ks fold_fx gt metrics spaces folds st = .ok (results, st') →
      results.length = folds.length := by
  intro folds
  induction folds with
  | nil =>
    intro st results st' h
    have h2 : (Except.ok ([], st) : Except PyError (List FoldResult × σ)) =
        .ok (results, st') := h
    have h3 := Except.ok.inj h2
    injection h3 with hA hB
    rw [← hA]
    rfl
  | cons f rest ih =>
    intro st results st' h
    cases h1 : _run_fold data f cm st ks fold_fx gt metrics spaces with
    | error e =>
      have hL := runFoldsSeq_cons_error data cm ks fold_fx gt metrics spaces
        f rest st e h1
      rw [hL] at h
      exact absurd h (by simp)
    | ok rs1 =>
      obtain ⟨r1, s1⟩ := rs1
      have hL := runFoldsSeq_cons_ok data cm ks fold_fx gt metrics spaces
        f rest st r1 s1 h1
      rw [hL] at h
      cases h2 : runFoldsSeq data cm ks fold_fx gt metrics spaces rest s1 with
      | error e =>
        rw [h2] at h
        exact absurd h (by simp)
      | ok pr2 =>
        obtain ⟨rs2, s2⟩ := pr2
        rw [h2] at h
        have h3 : (Except.ok (r1 :: rs2, s2) : Except PyError (List FoldResult × σ)) =
            .ok (results, st') := h
        have h4 := Except.ok.inj h3
        injection h4 with hA hB
        rw [← hA, List.length_cons, ih s1 rs2 s2 h2]
        rfl

theorem runFoldsSeq_results {σ : Type} (data : Dataset) (cm : CMethod σ)
    (ks : List Nat) (fold_fx : Option (Dataset → Dataset → Mtx × Mtx))
    (gt : Option Labels) (metrics : List CMetric) (spaces : List String) :
    ∀ (folds : List (List (Labels × Labels))) (st : σ) (results : List FoldResult)
      (st' : σ),
      runFoldsSeq data cm ks fold_fx gt metrics spaces folds st = .ok (results, st') →
      ∀ r ∈ results, (∀ p ∈ r, p.2.1 = ks ∧ p.2.2.length = ks.length) ∧
        dkeys r = dkeys (initResult ks gt metrics []) := by
  intro folds
  induction folds with
  | nil =>
    intro st results st' h r hr
    have h2 : (Except.ok ([], st) : Except PyError (List FoldResult × σ)) =
        .ok (results, st') := h
    have h3 := Except.ok.inj h2
    injection h3 with hA hB
    rw [← hA] at hr
    simp at hr
  | cons f rest ih =>
    intro st results st' h r hr
    cases h1 : _run_fold data f cm st ks fold_fx gt metrics spaces with
    | error e =>
      have hL := runFoldsSeq_cons_error data cm ks fold_fx gt metrics spaces
        f rest st e h1
      rw [hL] at h
      exact absurd h (by simp)
    | ok rs1 =>
      obtain ⟨r1, s1⟩ := rs1
      have hL := runFoldsSeq_cons_ok data cm ks fold_fx gt metrics spaces
        f rest st r1 s1 h1
      rw [hL] at h
      cases h2 : runFoldsSeq data cm ks fold_fx gt metrics spaces rest s1 with
      | error e =>
        rw [h2] at h
        exact absurd h (by simp)
      | ok pr2 =>
        obtain ⟨rs2, s2⟩ := pr2
        rw [h2] at h
        have h3 : (Except.ok (r1 :: rs2, s2) : Except PyError (List FoldResult × σ)) =
            .ok (results, st') := h
        have h4 := Except.ok.inj h3
        injection h4 with hA hB
        rw [← hA] at hr
        rcases List.mem_cons.mp hr with hh | hh
        · exact hh ▸ run_fold_shape data f cm st ks fold_fx gt metrics spaces r1 s1 h1
        · exact ih s1 rs2 s2 h2 r hh

theorem lookupNat_map {α : Type} (g : Nat → α) :
    ∀ (completion : List Nat) (i : Nat), i ∈ completion →
      lookupNat (completion.map (fun j => (j, g j))) i = some (g i) := by
  intro completion
  induction completion with
  | nil => intro i h; simp at h
  | cons c rest ih =>
    intro i h
    show (if c = i then some (g c) else lookupNat (rest.map (fun j => (j, g j))) i) = _
    by_cases hc : c = i
    · rw [if_pos hc, hc]
    · rw [if_neg hc]
      rcases List.mem_cons.mp h with hh | hh
      · exact absurd hh.symm hc
      · exact ih i hh

theorem filterMapEqMap {α β : Type} (f : α → Option β) (g : α → β) :
    ∀ (l : List α), (∀ x ∈ l, f x = some (g x)) → l.filterMap f = l.map g := by
  intro l
  induction l with
  | nil => intro _; rfl
  | cons x rest ih =>
    intro h
    rw [List.filterMap_cons, h x (List.mem_cons_self _ _), List.map_cons,
      ih (fun y hy => h y (List.mem_cons_of_mem _ hy))]

theorem rangeMapGetD {α β : Type} (d : α) (F : α → β) :
    ∀ (l : List α), (List.range l.length).map (fun i => F (l.getD i d)) = l.map F := by
  intro l
  induction l with
  | nil => rfl
  | cons a rest ih =>
    rw [List.length_cons, List.range_succ_eq_map, List.map_cons, List.map_map]
    have hc : ((fun i => F ((a :: rest).getD i d)) ∘ Nat.succ) =
        (fun i => F (rest.getD i d)) := by
      funext i
      rfl
    rw [hc, ih]
    rfl

theorem runFoldsPar_cov {σ : Type} (data : Dataset)
    (folds : List (List (Labels × Labels))) (cm : CMethod σ) (st0 : σ) (ks : List Nat)
    (fold_fx : Option (Dataset → Dataset → Mtx × Mtx)) (gt : Option Labels)
    (metrics : List CMetric) (spaces : List String) (completion : List Nat)
    (hcov : ∀ i, i < folds.length → i ∈ completion) :
    runFoldsPar data folds cm st0 ks fold_fx gt metrics spaces completion =
      folds.map (fun f =>
        (_run_fold data f cm st0 ks fold_fx gt metrics spaces).map Prod.fst) := by
  show (List.range folds.length).filterMap (fun idx => lookupNat (completion.map
    (fun idx => (idx, (_run_fold data (folds.getD idx []) cm st0 ks fold_fx gt metrics
      spaces).map Prod.fst))) idx) = _
  rw [filterMapEqMap _ (fun idx => (_run_fold data (folds.getD idx []) cm st0 ks
      fold_fx gt metrics spaces).map Prod.fst) _
    (fun i hi => lookupNat_map _ completion i (hcov i (List.mem_range.mp hi)))]
  exact rangeMapGetD [] (fun f =>
    (_run_fold data f cm st0 ks fold_fx gt metrics spaces).map Prod.fst) folds

theorem lookupTables_ok (key : String) :
    ∀ (results : List FoldResult) (tables : List Table),
      lookupTables key results = .ok tables →
      (∀ r ∈ results, ∃ t, dfind r key = some t) ∧
        tables = results.map (fun r => (dfind r key).getD ([], [])) := by
  intro results
  induction results with
  | nil =>
    intro tables h
    have h2 : (Except.ok [] : Except PyError (List Table)) = .ok tables := h
    constructor
    · intro r hr; simp at hr
    · exact (Except.ok.inj h2).symm
  | cons r rest ih =>
    intro tables h
    unfold lookupTables at h
    cases hd : dfind r key with
    | none => rw [hd] at h; exact absurd h (by simp)
    | some t =>
      rw [hd] at h
      cases hrest : lookupTables key rest with
      | error e => rw [hrest] at h; exact absurd h (by simp)
      | ok ts =>
        rw [hrest] at h
        have h2 : (Except.ok (t :: ts) : Except PyError (List Table)) = .ok tables := h
        have hts := ih ts hrest
        constructor
        · intro r' hr'
          rcases List.mem_cons.mp hr' with hh | hh
          · exact ⟨t, hh ▸ hd⟩
          · exact hts.1 r' hh
        · rw [← Except.ok.inj h2, List.map_cons, ← hts.2, hd]
          rfl

theorem aggAux_dfind (results : List FoldResult) :
    ∀ (entries acc scores : List (String × Table)),
      aggAux results entries acc = .ok scores →
      (∀ key t, dfind acc key = some t →
        (∀ r ∈ results, ∃ tr, dfind r key = some tr) ∧
          t = hstackTables (results.map (fun r => (dfind r key).getD ([], [])))) →
      ∀ key t, dfind scores key = some t →
        (∀ r ∈ results, ∃ tr, dfind r key = some tr) ∧
          t = hstackTables (results.map (fun r => (dfind r key).getD ([], []))) := by
  intro entries
  induction entries with
  | nil =>
    intro acc scores h hacc key t hf
    have h2 : (Except.ok acc : Except PyError (List (String × Table))) = .ok scores := h
    rw [← Except.ok.inj h2] at hf
    exact hacc key t hf
  | cons p rest ih =>
    intro acc scores h hacc key t hf
    unfold aggAux at h
    cases hT : lookupTables p.1 results with
    | error e => rw [hT] at h; exact absurd h (by simp)
    | ok tables =>
      rw [hT] at h
      have hlk := lookupTables_ok p.1 results tables hT
      refine ih _ scores h ?_ key t hf
      intro key' t' hf'
      rw [dfind_dinsert] at hf'
      by_cases hk : p.1 = key'
      · rw [if_pos hk] at hf'
        have ht' : t' = hstackTables tables := (Option.some.inj hf').symm
        constructor
        · intro r hr
          rcases hlk.1 r hr with ⟨tr, htr⟩
          exact ⟨tr, by rw [← hk]; exact htr⟩
        · rw [ht', hlk.2, ← hk]
      · rw [if_neg hk] at hf'
        exact hacc key' t' hf'

theorem mapConstEq {α β : Type} (c : β) :
    ∀ (l : List α) (f : α → β), (∀ x ∈ l, f x = c) →
      l.map f = List.replicate l.length c := by
  intro l
  induction l with
  | nil => intro f _; rfl
  | cons x rest ih =>
    intro f h
    rw [List.map_cons, h x (List.mem_cons_self _ _), List.length_cons,
      List.replicate_succ, ih f (fun y hy => h y (List.mem_cons_of_mem _ hy))]

theorem flattenLenAll {α : Type} (m : Nat) :
    ∀ (L : List (List α)), (∀ x ∈ L, x.length = m) →
      L.flatten.length = L.length * m := by
  intro L
  induction L with
  | nil => intro _; simp
  | cons x rest ih =>
    intro h
    rw [List.flatten_cons, List.length_append, h x (List.mem_cons_self _ _),
      ih (fun y hy => h y (List.mem_cons_of_mem _ hy)), List.length_cons,
      Nat.succ_mul, Nat.add_comm]

theorem getSomeGetD {α : Type} (l : List α) (i : Nat) (d : α) (h : i < l.length) :
    l[i]? = some (l.getD i d) := by
  rw [List.getD_eq_getElem?_getD, List.getElem?_eq_getElem h]
  rfl

theorem getDReplicateTrue (n i : Nat) :
    (List.replicate n true).getD i true = true := by
  rw [List.getD_eq_getElem?_getD, List.getElem?_replicate]
  by_cases h : i < n
  · rw [if_pos h]
    rfl
  · rw [if_neg h]
    rfl

theorem getDIn1d (arr s : Labels) (i : Nat) (h : i < arr.length) :
    (in1d arr s).getD i true = memArr arr s i := by
  rw [in1d, List.getD_eq_getElem?_getD, List.getElem?_map,
    List.getElem?_eq_getElem h]
  show decide ((arr[i]) ∈ s) = memArr arr s i
  rw [memArr, List.getD_eq_getElem?_getD, List.getElem?_eq_getElem h]
  rfl

theorem lengthIn1d (arr s : Labels) : (in1d arr s).length = arr.length :=
  List.length_map arr _

theorem getDMaskAnd (a b : List Bool) (i : Nat) (ha : i < a.length)
    (hb : i < b.length) :
    (maskAnd a b).getD i true = ((a.getD i true) && (b.getD i true)) := by
  rw [maskAnd, List.getD_eq_getElem?_getD, List.getElem?_zipWith]
  rw [List.getElem?_eq_getElem ha, List.getElem?_eq_getElem hb]
  rw [List.getD_eq_getElem?_getD a, List.getElem?_eq_getElem ha]
  rw [List.getD_eq_getElem?_getD b, List.getElem?_eq_getElem hb]
  rfl

theorem lengthMaskAnd (a b : List Bool) (ha : a.length = b.length) :
    (maskAnd a b).length = a.length := by
  rw [maskAnd, List.length_zipWith, ha, Nat.min_self]

theorem dfind_sa_length (data : Dataset)
    (hsa : ∀ p ∈ data.sa, p.2.length = data.nsamples) (nm : String) (arr : Labels)
    (h : dfind data.sa nm = some arr) : arr.length = data.nsamples :=
  hsa (nm, arr) (dfind_mem data.sa nm arr h)

theorem dfind_fa_length (data : Dataset)
    (hfa : ∀ p ∈ data.fa, p.2.length = data.nfeatures) (nm : String) (arr : Labels)
    (h : dfind data.fa nm = some arr) : arr.length = data.nfeatures :=
  hfa (nm, arr) (dfind_mem data.fa nm arr h)

theorem computeMasksAux_char (data : Dataset)
    (hsa : ∀ p ∈ data.sa, p.2.length = data.nsamples)
    (hfa : ∀ p ∈ data.fa, p.2.length = data.nfeatures) :
    ∀ (pairs : List ((Labels × Labels) × (String × String))) (msk msk' : Masks),
      msk.sa_train.length = data.nsamples → msk.sa_test.length = data.nsamples →
      msk.fa_train.length = data.nfeatures → msk.fa_test.length = data.nfeatures →
      computeMasksAux data pairs msk = .ok msk' →
      (msk'.sa_train.length = data.nsamples ∧ msk'.sa_test.length = data.nsamples ∧
        msk'.fa_train.length = data.nfeatures ∧ msk'.fa_test.length = data.nfeatures) ∧
      (∀ i, i < data.nsamples →
        msk'.sa_train.getD i true =
          ((msk.sa_train.getD i true) && pairs.all (fun pr => saTrainOK data pr i)) ∧
        msk'.sa_test.getD i true =
          ((msk.sa_test.getD i true) && pairs.all (fun pr => saTestOK data pr i))) ∧
      (∀ i, i < data.nfeatures →
        msk'.fa_train.getD i true =
          ((msk.fa_train.getD i true) && pairs.all (fun pr => faTrainOK data pr i)) ∧
        msk'.fa_test.getD i true =
          ((msk.fa_test.getD i true) && pairs.all (fun pr => faTestOK data pr i))) := by
  intro pairs
  induction pairs with
  | nil =>
    intro msk msk' h1 h2 h3 h4 hok
    have hmm : msk = msk' := by
      have : (Except.ok msk : Except PyError Masks) = .ok msk' := hok
      exact Except.ok.inj this
    subst hmm
    refine ⟨⟨h1, h2, h3, h4⟩, ?_, ?_⟩
    · intro i _
      simp
    · intro i _
      simp
  | cons pr rest ih =>
    intro msk msk' h1 h2 h3 h4 hok
    unfold computeMasksAux at hok
    cases hstep : updateMasksStep data msk pr with
    | error e => rw [hstep] at hok; exact absurd hok (by simp)
    | ok msk2 =>
      rw [hstep] at hok
      unfold updateMasksStep at hstep
      by_cases hsa1 : pr.2.1 = "sa"
      · rw [if_pos hsa1] at hstep
        cases harr : dfind data.sa pr.2.2 with
        | none => rw [harr] at hstep; exact absurd hstep (by simp)
        | some arr =>
          rw [harr] at hstep
          have hmsk2 : msk2 = { msk with
              sa_train := maskAnd msk.sa_train (in1d arr pr.1.1)
              sa_test := maskAnd msk.sa_test (in1d arr pr.1.2) } :=
            (Except.ok.inj hstep).symm
          have hc1 : msk2.sa_train = maskAnd msk.sa_train (in1d arr pr.1.1) := by
            rw [hmsk2]
          have hc2 : msk2.sa_test = maskAnd msk.sa_test (in1d arr pr.1.2) := by
            rw [hmsk2]
          have hc3 : msk2.fa_train = msk.fa_train := by rw [hmsk2]
          have hc4 : msk2.fa_test = msk.fa_test := by rw [hmsk2]
          have harrlen : arr.length = data.nsamples :=
            dfind_sa_length data hsa pr.2.2 arr harr
          have hl1 : msk2.sa_train.length = data.nsamples := by
            rw [hc1, lengthMaskAnd _ _ (by rw [lengthIn1d, h1, harrlen]), h1]
          have hl2 : msk2.sa_test.length = data.nsamples := by
            rw [hc2, lengthMaskAnd _ _ (by rw [lengthIn1d, h2, harrlen]), h2]
          have hl3 : msk2.fa_train.length = data.nfeatures := by rw [hc3]; exact h3
          have hl4 : msk2.fa_test.length = data.nfeatures := by rw [hc4]; exact h4
          rcases ih msk2 msk' hl1 hl2 hl3 hl4 hok with ⟨hlen, hsamp, hfeat⟩
          refine ⟨hlen, ?_, ?_⟩
          · intro i hi
            rcases hsamp i hi with ⟨ha, hb⟩
            have hsaok1 : saTrainOK data pr i = memArr arr pr.1.1 i := by
              rw [saTrainOK, if_pos hsa1, harr]
              rfl
            have hsaok2 : saTestOK data pr i = memArr arr pr.1.2 i := by
              rw [saTestOK, if_pos hsa1, harr]
              rfl
            constructor
            · rw [ha, hc1, getDMaskAnd _ _ _ (h1 ▸ hi)
                (by rw [lengthIn1d, harrlen]; exact hi),
                getDIn1d _ _ _ (by rw [harrlen]; exact hi),
                List.all_cons, hsaok1, ← Bool.and_assoc]
            · rw [hb, hc2, getDMaskAnd _ _ _ (h2 ▸ hi)
                (by rw [lengthIn1d, harrlen]; exact hi),
                getDIn1d _ _ _ (by rw [harrlen]; exact hi),
                List.all_cons, hsaok2, ← Bool.and_assoc]
          · intro i hi
            rcases hfeat i hi with ⟨ha, hb⟩
            have hneq : ¬ pr.2.1 = "fa" := by
              rw [hsa1]
              intro hh
              exact absurd hh (by decide)
            have hfaok1 : faTrainOK data pr i = true := by
              rw [faTrainOK, if_neg hneq]
            have hfaok2 : faTestOK data pr i = true := by
              rw [faTestOK, if_neg hneq]
            constructor
            · rw [ha, hc3, List.all_cons, hfaok1, Bool.true_and]
            · rw [hb, hc4, List.all_cons, hfaok2, Bool.true_and]
      · rw [if_neg hsa1] at hstep
        by_cases hfa1 : pr.2.1 = "fa"
        · rw [if_pos hfa1] at hstep
          cases harr : dfind data.fa pr.2.2 with
          | none => rw [harr] at hstep; exact absurd hstep (by simp)
          | some arr =>
            rw [harr] at hstep
            have hmsk2 : msk2 = { msk with
                fa_train := maskAnd msk.fa_train (in1d arr pr.1.1)
                fa_test := maskAnd msk.fa_test (in1d arr pr.1.2) } :=
              (Except.ok.inj hstep).symm
            have hc1 : msk2.sa_train = msk.sa_train := by rw [hmsk2]
            have hc2 : msk2.sa_test = msk.sa_test := by rw [hmsk2]
            have hc3 : msk2.fa_train = maskAnd msk.fa_train (in1d arr pr.1.1) := by
              rw [hmsk2]
            have hc4 : msk2.fa_test = maskAnd msk.fa_test (in1d arr pr.1.2) := by
              rw [hmsk2]
            have harrlen : arr.length = data.nfeatures :=
              dfind_fa_length data hfa pr.2.2 arr harr
            have hl1 : msk2.sa_train.length = data.nsamples := by rw [hc1]; exact h1
            have hl2 : msk2.sa_test.length = data.nsamples := by rw [hc2]; exact h2
            have hl3 : msk2.fa_train.length = data.nfeatures := by
              rw [hc3, lengthMaskAnd _ _ (by rw [lengthIn1d, h3, harrlen]), h3]
            have hl4 : msk2.fa_test.length = data.nfeatures := by
              rw [hc4, lengthMaskAnd _ _ (by rw [lengthIn1d, h4, harrlen]), h4]
            rcases ih msk2 msk' hl1 hl2 hl3 hl4 hok with ⟨hlen, hsamp, hfeat⟩
            refine ⟨hlen, ?_, ?_⟩
            · intro i hi
              rcases hsamp i hi with ⟨ha, hb⟩
              have hsaok1 : saTrainOK data pr i = true := by
                rw [saTrainOK, if_neg (by rw [hfa1]; intro hh; exact absurd hh (by decide))]
              have hsaok2 : saTestOK data pr i = true := by
                rw [saTestOK, if_neg (by rw [hfa1]; intro hh; exact absurd hh (by decide))]
              constructor
              · rw [ha, hc1, List.all_cons, hsaok1, Bool.true_and]
              · rw [hb, hc2, List.all_cons, hsaok2, Bool.true_and]
            · intro i hi
              rcases hfeat i hi with ⟨ha, hb⟩
              have hfaok1 : faTrainOK data pr i = memArr arr pr.1.1 i := by
                rw [faTrainOK, if_pos hfa1, harr]
                rfl
              have hfaok2 : faTestOK data pr i = memArr arr pr.1.2 i := by
                rw [faTestOK, if_pos hfa1, harr]
                rfl
              constructor
              · rw [ha, hc3, getDMaskAnd _ _ _ (h3 ▸ hi)
                  (by rw [lengthIn1d, harrlen]; exact hi),
                  getDIn1d _ _ _ (by rw [harrlen]; exact hi),
                  List.all_cons, hfaok1, ← Bool.and_assoc]
              · rw [hb, hc4, getDMaskAnd _ _ _ (h4 ▸ hi)
                  (by rw [lengthIn1d, harrlen]; exact hi),
                  getDIn1d _ _ _ (by rw [harrlen]; exact hi),
                  List.all_cons, hfaok2, ← Bool.and_assoc]
        · rw [if_neg hfa1] at hstep
          exact absurd hstep (by simp)

theorem computeMasksAux_nofa (data : Dataset) :
    ∀ (pairs : List ((Labels × Labels) × (String × String))) (msk msk' : Masks),
      (∀ pr ∈ pairs, pr.2.1 ≠ "fa") →
      computeMasksAux data pairs msk = .ok msk' →
      msk'.fa_train = msk.fa_train ∧ msk'.fa_test = msk.fa_test := by
  intro pairs
  induction pairs with
  | nil =>
    intro msk msk' _ hok
    have : (Except.ok msk : Except PyError Masks) = .ok msk' := hok
    rw [← Except.ok.inj this]
    exact ⟨rfl, rfl⟩
  | cons pr rest ih =>
    intro msk msk' hno hok
    unfold computeMasksAux at hok
    cases hstep : updateMasksStep data msk pr with
    | error e => rw [hstep] at hok; exact absurd hok (by simp)
    | ok msk2 =>
      rw [hstep] at hok
      unfold updateMasksStep at hstep
      by_cases hsa1 : pr.2.1 = "sa"
      · rw [if_pos hsa1] at hstep
        cases harr : dfind data.sa pr.2.2 with
        | none => rw [harr] at hstep; exact absurd hstep (by simp)
        | some arr =>
          rw [harr] at hstep
          have hmsk2 : msk2 = { msk with
              sa_train := maskAnd msk.sa_train (in1d arr pr.1.1)
              sa_test := maskAnd msk.sa_test (in1d arr pr.1.2) } :=
            (Except.ok.inj hstep).symm
          have hresult := ih msk2 msk'
            (fun q hq => hno q (List.mem_cons_of_mem _ hq)) hok
          constructor
          · rw [hresult.1, hmsk2]
          · rw [hresult.2, hmsk2]
      · rw [if_neg hsa1] at hstep
        by_cases hfa1 : pr.2.1 = "fa"
        · exact absurd hfa1 (hno pr (List.mem_cons_self _ _))
        · rw [if_neg hfa1] at hstep
          exact absurd hstep (by simp)

theorem computeMasksAux_nosa (data : Dataset) :
    ∀ (pairs : List ((Labels × Labels) × (String × String))) (msk msk' : Masks),
      (∀ pr ∈ pairs, pr.2.1 ≠ "sa") →
      computeMasksAux data pairs msk = .ok msk' →
      msk'.sa_train = msk.sa_train ∧ msk'.sa_test = msk.sa_test := by
  intro pairs
  induction pairs with
  | nil =>
    intro msk msk' _ hok
    have : (Except.ok msk : Except PyError Masks) = .ok msk' := hok
    rw [← Except.ok.inj this]
    exact ⟨rfl, rfl⟩
  | cons pr rest ih =>
    intro msk msk' hno hok
    unfold computeMasksAux at hok
    cases hstep : updateMasksStep data msk pr with
    | error e => rw [hstep] at hok; exact absurd hok (by simp)
    | ok msk2 =>
      rw [hstep] at hok
      unfold updateMasksStep at hstep
      by_cases hsa1 : pr.2.1 = "sa"
      · exact absurd hsa1 (hno pr (List.mem_cons_self _ _))
      · rw [if_neg hsa1] at hstep
        by_cases hfa1 : pr.2.1 = "fa"
        · rw [if_pos hfa1] at hstep
          cases harr : dfind data.fa pr.2.2 with
          | none => rw [harr] at hstep; exact absurd hstep (by simp)
          | some arr =>
            rw [harr] at hstep
            have hmsk2 : msk2 = { msk with
                fa_train := maskAnd msk.fa_train (in1d arr pr.1.1)
                fa_test := maskAnd msk.fa_test (in1d arr pr.1.2) } :=
              (Except.ok.inj hstep).symm
            have hresult := ih msk2 msk'
              (fun q hq => hno q (List.mem_cons_of_mem _ hq)) hok
            constructor
            · rw [hresult.1, hmsk2]
            · rw [hresult.2, hmsk2]
        · rw [if_neg hfa1] at hstep
          exact absurd hstep (by simp)

theorem computeMasksAux_bad (data : Dataset) :
    ∀ (pairs : List ((Labels × Labels) × (String × String))) (msk : Masks),
      (∀ pr ∈ pairs, pr.2.1 = "sa" → pr.2.2 ∈ dkeys data.sa) →
      (∀ pr ∈ pairs, pr.2.1 = "fa" → pr.2.2 ∈ dkeys data.fa) →
      (∃ pr ∈ pairs, pr.2.1 ≠ "sa" ∧ pr.2.1 ≠ "fa") →
      computeMasksAux data pairs msk = .error (.valueError "We should not get here") := by
  intro pairs
  induction pairs with
  | nil =>
    intro msk _ _ hex
    rcases hex with ⟨pr, hpr, _⟩
    simp at hpr
  | cons pr rest ih =>
    intro msk hsak hfak hex
    have hgoal : (match updateMasksStep data msk pr with
        | Except.error e => Except.error e
        | Except.ok msk2 => computeMasksAux data rest msk2) =
        computeMasksAux data (pr :: rest) msk := rfl
    rw [← hgoal]
    by_cases hsa1 : pr.2.1 = "sa"
    · rcases mem_dkeys_dfind data.sa pr.2.2
          (hsak pr (List.mem_cons_self _ _) hsa1) with ⟨arr, harr⟩
      have hstep : updateMasksStep data msk pr = .ok { msk with
          sa_train := maskAnd msk.sa_train (in1d arr pr.1.1)
          sa_test := maskAnd msk.sa_test (in1d arr pr.1.2) } := by
        unfold updateMasksStep
        rw [if_pos hsa1, harr]
      rw [hstep]
      apply ih
      · exact fun q hq => hsak q (List.mem_cons_of_mem _ hq)
      · exact fun q hq => hfak q (List.mem_cons_of_mem _ hq)
      · rcases hex with ⟨q, hq, hbad⟩
        rcases List.mem_cons.mp hq with hh | hh
        · exact absurd (hh ▸ hsa1) hbad.1
        · exact ⟨q, hh, hbad⟩
    · by_cases hfa1 : pr.2.1 = "fa"
      · rcases mem_dkeys_dfind data.fa pr.2.2
            (hfak pr (List.mem_cons_self _ _) hfa1) with ⟨arr, harr⟩
        have hstep : updateMasksStep data msk pr = .ok { msk with
            fa_train := maskAnd msk.fa_train (in1d arr pr.1.1)
            fa_test := maskAnd msk.fa_test (in1d arr pr.1.2) } := by
          unfold updateMasksStep
          rw [if_neg hsa1, if_pos hfa1, harr]
        rw [hstep]
        apply ih
        · exact fun q hq => hsak q (List.mem_cons_of_mem _ hq)
        · exact fun q hq => hfak q (List.mem_cons_of_mem _ hq)
        · rcases hex with ⟨q, hq, hbad⟩
          rcases List.mem_cons.mp hq with hh | hh
          · exact absurd (hh ▸ hfa1) hbad.2
          · exact ⟨q, hh, hbad⟩
      · have hstep : updateMasksStep data msk pr =
            .error (.valueError "We should not get here") := by
          unfold updateMasksStep
          rw [if_neg hsa1, if_neg hfa1]
        rw [hstep]

theorem checkSpaces_ok (data : Dataset) :
    ∀ (ss : List (String × String)), checkSpaces data ss = .ok () →
      ∀ p ∈ ss, ∃ coll, getattrColl data p.1 = some coll ∧ p.2 ∈ dkeys coll := by
  intro ss
  induction ss with
  | nil => intro _ p hp; simp at hp
  | cons q rest ih =>
    intro h p hp
    unfold checkSpaces at h
    cases hcoll : getattrColl data q.1 with
    | none => rw [hcoll] at h; exact absurd h (by simp)
    | some coll =>
      rw [hcoll] at h
      have h2 : (if q.2 ∈ dkeys coll then checkSpaces data rest
          else Except.error (PyError.keyError q.2)) = Except.ok () := h
      by_cases hk : q.2 ∈ dkeys coll
      · rw [if_pos hk] at h2
        rcases List.mem_cons.mp hp with hh | hh
        · exact ⟨coll, hh ▸ hcoll, hh ▸ hk⟩
        · exact ih h2 p hh
      · rw [if_neg hk] at h2
        exact absurd h2 (by simp)

theorem applyMask_replicate {α : Type} :
    ∀ (xs : List α) (n : Nat), xs.length = n →
      applyMask (List.replicate n true) xs = xs := by
  intro xs
  induction xs with
  | nil => intro n _; cases n <;> rfl
  | cons x rest ih =>
    intro n hn
    cases n with
    | zero => simp at hn
    | succ m =>
      show applyMask (List.replicate (m + 1) true) (x :: rest) = x :: rest
      rw [List.replicate_succ]
      show x :: applyMask (List.replicate m true) rest = x :: rest
      rw [ih m (by simpa using hn)]

theorem initMasks_lengths (data : Dataset) :
    (initMasks data).sa_train.length = data.nsamples ∧
    (initMasks data).sa_test.length = data.nsamples ∧
    (initMasks data).fa_train.length = data.nfeatures ∧
    (initMasks data).fa_test.length = data.nfeatures := by
  refine ⟨?_, ?_, ?_, ?_⟩ <;> exact List.length_replicate _ _

theorem foldSetup_eq (data : Dataset) (split : List (Labels × Labels))
    (ffx : Option (Dataset → Dataset → Mtx × Mtx)) (spaces : List String)
    (ss : List (String × String)) (hparse : parseSpaces spaces = .ok ss) :
    foldSetup data split ffx spaces =
      match checkSpaces data ss with
      | .error e => .error e
      | .ok _ =>
        match computeMasks data split ss with
        | .error e => .error e
        | .ok msk =>
          let data_train := sliceDataset data msk.sa_train msk.fa_train
          let data_test := sliceDataset data msk.sa_test msk.fa_test
          let pair :=
            match ffx with
            | none => (data_train.samples, data_test.samples)
            | some f => f data_train data_test
          .ok (transposeM pair.1, transposeM pair.2) := by
  unfold foldSetup
  rw [hparse]

theorem foldSetup_masks_error (data : Dataset) (split : List (Labels × Labels))
    (ffx : Option (Dataset → Dataset → Mtx × Mtx)) (spaces : List String)
    (ss : List (String × String)) (e : PyError)
    (hparse : parseSpaces spaces = .ok ss)
    (hcheck : checkSpaces data ss = .ok ())
    (hmask : computeMasks data split ss = .error e) :
    foldSetup data split ffx spaces = .error e := by
  rw [foldSetup_eq data split ffx spaces ss hparse, hcheck, hmask]

/-- C4 (code_bug evidence): with 2 splitters and 1 declared space, the
orchestrator raises before any fold is dispatched, but the error is a
`TypeError` from evaluating `len(splitters, len(spaces))` inside the message
format call — the intended `ValueError` naming the two counts is never
constructed. -/
theorem claim_C4_code_bug :
    reproducibility_seq dsA [[(([0] : Labels), ([1] : Labels))], [([0], [1])]]
      cmCount 0 [2] none none [mHead] ["sa.x"] =
      .error (.typeError "len() takes exactly one argument (2 given)") := by
  decide

/-- C1 (counterexample): under sequential dispatch the orchestrated call does
not coincide with the spec's fresh-pair-per-fold semantics: `cm_train` is the
caller-supplied method object itself, so with a stateful method the second fold
observes the first fold's training mutations. -/
theorem claim_C1_counterexample :
    reproducibility_seq dsA splA cmCount 0 [2] none none [mHead] ["sa.x"] ≠
      reproducibilityFreshSpec dsA splA cmCount 0 [2] none none [mHead] ["sa.x"] := by
  decide

/-- C1 (amended): the second instance is a deepcopy of the first taken at fold
entry before any training — within a fold its state evolves only by its own
training on the test matrix — and under parallel dispatch (where pickling
copies the method per task) every fold's pair starts fresh from the caller's
pre-call state, so the parallel orchestrated call equals the spec's
fresh-per-fold semantics; under sequential dispatch the first instance is the
caller's object and its state is carried from fold to fold. -/
theorem claim_C1_amended {σ : Type} (data : Dataset)
    (splitters : List (List (Labels × Labels))) (cm : CMethod σ) (st : σ)
    (ks : List Nat) (gt : Option Labels)
    (ffx : Option (Dataset → Dataset → Mtx × Mtx)) (metrics : List CMetric)
    (spaces : List String) (completion : List Nat)
    (hcov : ∀ i, i < (listProd splitters).length → i ∈ completion) :
    reproducibility_par data splitters cm st ks gt ffx metrics spaces completion =
      reproducibilityFreshSpec data splitters cm st ks gt ffx metrics spaces ∧
    (∀ (sTr sTe : Mtx) (ks' : List Nat) (d : FoldResult) (i : Nat),
      (kLoopAux cm metrics gt sTr sTe ks' i ⟨d, st, st⟩).stTest =
        trainSeq cm sTe st ks') := by
  constructor
  · unfold reproducibility_par reproducibilityFreshSpec
    rw [runFoldsPar_cov data (listProd splitters) cm st ks ffx gt metrics spaces
      completion hcov]
  · intro sTr sTe ks' d i
    exact kLoopAux_stTest cm metrics gt sTr sTe ks' i ⟨d, st, st⟩

theorem claim_C1_witness :
    (∀ i, i < (listProd splA).length → i ∈ [1, 0]) ∧
    (reproducibility_par dsA splA cmCount 0 [2] none none [mHead] ["sa.x"] [1, 0] =
        reproducibilityFreshSpec dsA splA cmCount 0 [2] none none [mHead] ["sa.x"] ∧
      (∀ (sTr sTe : Mtx) (ks' : List Nat) (d : FoldResult) (i : Nat),
        (kLoopAux cmCount [mHead] none sTr sTe ks' i ⟨d, 0, 0⟩).stTest =
          trainSeq cmCount sTe 0 ks')) :=
  ⟨by decide,
    claim_C1_amended dsA splA cmCount 0 [2] none none [mHead] ["sa.x"] [1, 0]
      (by decide)⟩

/-- C7 (counterexample): a space whose axis kind is neither `sa` nor `fa` does
not in general fail with the `UnreachableState` error: `getattr(data, attr)` in
the earlier validation loop fails first, here with an `AttributeError` for the
axis kind `zz`. -/
theorem claim_C7_counterexample :
    _run_fold dsA [(([0] : Labels), ([0] : Labels))] cmCount 0 [2] none none
        [mHead] ["zz.x"] = .error (.attributeError "zz") ∧
      (Except.error (PyError.attributeError "zz") :
          Except PyError (FoldResult × Nat)) ≠
        .error (.valueError "We should not get here") :=
  ⟨by decide, by decide⟩

/-- C7 (amended): the `UnreachableState` error (`ValueError('We should not get
here')`) is raised exactly when the validation loop passes — every space's axis
kind resolves to a keyed dataset collection containing the annotation name (for
example the dataset-attribute collection `a`) — and some zipped constraint's
axis kind is neither `sa` nor `fa`; otherwise the earlier attribute/key lookup
fails first. -/
theorem claim_C7_amended {σ : Type} (data : Dataset)
    (split : List (Labels × Labels)) (cm : CMethod σ) (st : σ) (ks : List Nat)
    (ffx : Option (Dataset → Dataset → Mtx × Mtx)) (gt : Option Labels)
    (metrics : List CMetric) (spaces : List String) (ss : List (String × String))
    (hparse : parseSpaces spaces = .ok ss)
    (hcheck : checkSpaces data ss = .ok ())
    (hbad : ∃ pr ∈ split.zip ss, pr.2.1 ≠ "sa" ∧ pr.2.1 ≠ "fa") :
    _run_fold data split cm st ks ffx gt metrics spaces =
      .error (.valueError "We should not get here") := by
  have hpres := checkSpaces_ok data ss hcheck
  have hsak : ∀ pr ∈ split.zip ss, pr.2.1 = "sa" → pr.2.2 ∈ dkeys data.sa := by
    intro pr hpr hsa1
    rcases hpres pr.2 (List.of_mem_zip hpr).2 with ⟨coll, hcoll, hk⟩
    have hgc : getattrColl data "sa" = some coll := hsa1 ▸ hcoll
    have h3 : getattrColl data "sa" = some data.sa := by
      unfold getattrColl
      rw [if_pos rfl]
    have hc : coll = data.sa := (Option.some.inj (h3.symm.trans hgc)).symm
    exact hc ▸ hk
  have hfak : ∀ pr ∈ split.zip ss, pr.2.1 = "fa" → pr.2.2 ∈ dkeys data.fa := by
    intro pr hpr hfa1
    rcases hpres pr.2 (List.of_mem_zip hpr).2 with ⟨coll, hcoll, hk⟩
    have hgc : getattrColl data "fa" = some coll := hfa1 ▸ hcoll
    have h3 : getattrColl data "fa" = some data.fa := by
      unfold getattrColl
      rw [if_neg (by decide), if_pos rfl]
    have hc : coll = data.fa := (Option.some.inj (h3.symm.trans hgc)).symm
    exact hc ▸ hk
  have hmask : computeMasks data split ss =
      .error (.valueError "We should not get here") :=
    computeMasksAux_bad data (split.zip ss) (initMasks data) hsak hfak hbad
  exact run_fold_eq_error data split cm st ks ffx gt metrics spaces _
    (foldSetup_masks_error data split ffx spaces ss _ hparse hcheck hmask)

theorem claim_C7_witness :
    (parseSpaces ["a.foo"] = .ok [("a", "foo")] ∧
      checkSpaces dsB [("a", "foo")] = .ok () ∧
      (∃ pr ∈ ([(([5] : Labels), ([5] : Labels))]).zip [("a", "foo")],
        pr.2.1 ≠ "sa" ∧ pr.2.1 ≠ "fa")) ∧
    _run_fold dsB [(([5] : Labels), ([5] : Labels))] cmCount 0 [2] none none
        [mHead] ["a.foo"] = .error (.valueError "We should not get here") :=
  ⟨⟨by decide, by decide, by decide⟩,
    claim_C7_amended dsB [([5], [5])] cmCount 0 [2] none none [mHead] ["a.foo"]
      [("a", "foo")] (by decide) (by decide) (by decide)⟩

/-- C10 (counterexample): without a ground truth the fold's key set is exactly
the configured metric identities, but a `_gt`-suffixed key can still be present
when a metric's own identity ends in `_gt`, contradicting the claim that no
`_gt`-suffixed key is ever present. -/
theorem claim_C10_counterexample :
    (_run_fold dsA [(([0] : Labels), ([1] : Labels))] cmCount 0 [2] none none
        [mGt] ["sa.x"]).map (fun p => dkeys p.1) = .ok ["m_gt"] ∧
      gtSuffixed "m_gt" = true :=
  ⟨by decide, by decide⟩

/-- C10 (amended): for a fold run without a ground truth the result's key set
is exactly the configured metrics' string identities, and it contains a
`_gt`-suffixed key only if some configured metric's identity itself ends in
`_gt`. -/
theorem claim_C10_amended {σ : Type} (data : Dataset)
    (split : List (Labels × Labels)) (cm : CMethod σ) (st : σ) (ks : List Nat)
    (ffx : Option (Dataset → Dataset → Mtx × Mtx)) (metrics : List CMetric)
    (spaces : List String) (r : FoldResult) (s : σ)
    (hok : _run_fold data split cm st ks ffx none metrics spaces = .ok (r, s)) :
    (∀ key, key ∈ dkeys r ↔ ∃ mt ∈ metrics, key = mt.name) ∧
    ((∀ mt ∈ metrics, gtSuffixed mt.name = false) →
      ∀ key ∈ dkeys r, gtSuffixed key = false) := by
  have hkeys := (run_fold_shape data split cm st ks ffx none metrics spaces r s hok).2
  have hiff : ∀ key, key ∈ dkeys r ↔ ∃ mt ∈ metrics, key = mt.name := by
    intro key
    rw [hkeys, initResult_keys]
    simp [dkeys]
  refine ⟨hiff, ?_⟩
  intro hno key hkey
  rcases (hiff key).mp hkey with ⟨mt, hmt, hname⟩
  rw [hname]
  exact hno mt hmt

theorem claim_C10_witness :
    (_run_fold dsA [(([0] : Labels), ([1] : Labels))] cmCount 0 [2] none none
        [mHead] ["sa.x"] = .ok ([("m", ([2], [1]))], 1)) ∧
    ((∀ key, key ∈ dkeys [("m", (([2] : List Nat), ([1] : List Int)))] ↔
        ∃ mt ∈ [mHead], key = mt.name) ∧
      ((∀ mt ∈ [mHead], gtSuffixed mt.name = false) →
        ∀ key ∈ dkeys [("m", (([2] : List Nat), ([1] : List Int)))],
          gtSuffixed key = false)) :=
  ⟨by decide,
    claim_C10_amended dsA [([0], [1])] cmCount 0 [2] none [mHead] ["sa.x"]
      [("m", ([2], [1]))] 1 (by decide)⟩

/-- C3: the Fold Partitioner starts from all-true masks and, for each zipped
(space, (train-set, test-set)) constraint, ANDs membership of the named
annotation array in the train set into that axis's train mask and membership in
the test set into that axis's test mask — so every mask entry equals the
conjunction over all constraints of that axis's pointwise membership predicate;
in particular, with two spaces on the unit axis an element is in the training
partition iff it satisfies both spaces' training predicates. -/
theorem claim_C3 (data : Dataset) (split : List (Labels × Labels))
    (ss : List (String × String)) (msk : Masks)
    (hsa : ∀ p ∈ data.sa, p.2.length = data.nsamples)
    (hfa : ∀ p ∈ data.fa, p.2.length = data.nfeatures)
    (hok : computeMasks data split ss = .ok msk) :
    (∀ i, i < data.nsamples →
      msk.sa_train.getD i true = (split.zip ss).all (fun pr => saTrainOK data pr i) ∧
      msk.sa_test.getD i true = (split.zip ss).all (fun pr => saTestOK data pr i)) ∧
    (∀ i, i < data.nfeatures →
      msk.fa_train.getD i true = (split.zip ss).all (fun pr => faTrainOK data pr i) ∧
      msk.fa_test.getD i true = (split.zip ss).all (fun pr => faTestOK data pr i)) := by
  have hinit := initMasks_lengths data
  have hchar := computeMasksAux_char data hsa hfa (split.zip ss) (initMasks data) msk
    hinit.1 hinit.2.1 hinit.2.2.1 hinit.2.2.2 hok
  rcases hchar with ⟨_, hsamp, hfeat⟩
  constructor
  · intro i hi
    rcases hsamp i hi with ⟨ha, hb⟩
    constructor
    · rw [ha]
      show ((List.replicate data.nsamples true).getD i true &&
        (split.zip ss).all (fun pr => saTrainOK data pr i)) =
        (split.zip ss).all (fun pr => saTrainOK data pr i)
      rw [getDReplicateTrue, Bool.true_and]
    · rw [hb]
      show ((List.replicate data.nsamples true).getD i true &&
        (split.zip ss).all (fun pr => saTestOK data pr i)) =
        (split.zip ss).all (fun pr => saTestOK data pr i)
      rw [getDReplicateTrue, Bool.true_and]
  · intro i hi
    rcases hfeat i hi with ⟨ha, hb⟩
    constructor
    · rw [ha]
      show ((List.replicate data.nfeatures true).getD i true &&
        (split.zip ss).all (fun pr => faTrainOK data pr i)) =
        (split.zip ss).all (fun pr => faTrainOK data pr i)
      rw [getDReplicateTrue, Bool.true_and]
    · rw [hb]
      show ((List.replicate data.nfeatures true).getD i true &&
        (split.zip ss).all (fun pr => faTestOK data pr i)) =
        (split.zip ss).all (fun pr => faTestOK data pr i)
      rw [getDReplicateTrue, Bool.true_and]

theorem claim_C3_witness :
    ((∀ p ∈ dsC.sa, p.2.length = dsC.nsamples) ∧
      (∀ p ∈ dsC.fa, p.2.length = dsC.nfeatures) ∧
      computeMasks dsC [([0], [1]), ([0, 2], [2])] [("sa", "x"), ("sa", "y")] =
        .ok ⟨[true, false], [false, true], [true, true], [true, true]⟩) ∧
    ((∀ i, i < dsC.nsamples →
      (Masks.mk [true, false] [false, true] [true, true] [true, true]).sa_train.getD
          i true =
        (([(([0] : Labels), ([1] : Labels)), ([0, 2], [2])]).zip
          [("sa", "x"), ("sa", "y")]).all (fun pr => saTrainOK dsC pr i) ∧
      (Masks.mk [true, false] [false, true] [true, true] [true, true]).sa_test.getD
          i true =
        (([(([0] : Labels), ([1] : Labels)), ([0, 2], [2])]).zip
          [("sa", "x"), ("sa", "y")]).all (fun pr => saTestOK dsC pr i)) ∧
    (∀ i, i < dsC.nfeatures →
      (Masks.mk [true, false] [false, true] [true, true] [true, true]).fa_train.getD
          i true =
        (([(([0] : Labels), ([1] : Labels)), ([0, 2], [2])]).zip
          [("sa", "x"), ("sa", "y")]).all (fun pr => faTrainOK dsC pr i) ∧
      (Masks.mk [true, false] [false, true] [true, true] [true, true]).fa_test.getD
          i true =
        (([(([0] : Labels), ([1] : Labels)), ([0, 2], [2])]).zip
          [("sa", "x"), ("sa", "y")]).all (fun pr => faTestOK dsC pr i))) :=
  ⟨⟨by decide, by decide, by decide⟩,
    claim_C3 dsC [([0], [1]), ([0, 2], [2])] [("sa", "x"), ("sa", "y")]
      ⟨[true, false], [false, true], [true, true], [true, true]⟩
      (by decide) (by decide) (by decide)⟩

/-- C9: a split constraint on a space of one axis kind leaves the other axis's
masks unchanged (all-true); in particular, when every zipped space is on the
unit axis, both feature-axis masks stay all-true, so boolean selection with
them keeps every feature — the full feature axis belongs to both the training
and the test partition. -/
theorem claim_C9 (data : Dataset) (split : List (Labels × Labels))
    (ss : List (String × String)) (msk : Masks)
    (hok : computeMasks data split ss = .ok msk) :
    ((∀ pr ∈ split.zip ss, pr.2.1 ≠ "fa") →
      msk.fa_train = List.replicate data.nfeatures true ∧
      msk.fa_test = List.replicate data.nfeatures true ∧
      ∀ (row : List Int), row.length = data.nfeatures →
        applyMask msk.fa_train row = row ∧ applyMask msk.fa_test row = row) ∧
    ((∀ pr ∈ split.zip ss, pr.2.1 ≠ "sa") →
      msk.sa_train = List.replicate data.nsamples true ∧
      msk.sa_test = List.replicate data.nsamples true) := by
  constructor
  · intro hno
    have h := computeMasksAux_nofa data (split.zip ss) (initMasks data) msk hno hok
    have h1 : msk.fa_train = List.replicate data.nfeatures true := h.1
    have h2 : msk.fa_test = List.replicate data.nfeatures true := h.2
    refine ⟨h1, h2, ?_⟩
    intro row hrow
    rw [h1, h2]
    exact ⟨applyMask_replicate row data.nfeatures hrow,
      applyMask_replicate row data.nfeatures hrow⟩
  · intro hno
    have h := computeMasksAux_nosa data (split.zip ss) (initMasks data) msk hno hok
    have h1 : msk.sa_train = List.replicate data.nsamples true := h.1
    have h2 : msk.sa_test = List.replicate data.nsamples true := h.2
    exact ⟨h1, h2⟩

theorem claim_C9_witness :
    (computeMasks dsA [([0], [1])] [("sa", "x")] =
      .ok ⟨[true, false], [false, true], [true], [true]⟩) ∧
    (((∀ pr ∈ ([(([0] : Labels), ([1] : Labels))]).zip [("sa", "x")],
        pr.2.1 ≠ "fa") →
      (Masks.mk [true, false] [false, true] [true] [true]).fa_train =
          List.replicate dsA.nfeatures true ∧
        (Masks.mk [true, false] [false, true] [true] [true]).fa_test =
          List.replicate dsA.nfeatures true ∧
        ∀ (row : List Int), row.length = dsA.nfeatures →
          applyMask (Masks.mk [true, false] [false, true] [true] [true]).fa_train
              row = row ∧
            applyMask (Masks.mk [true, false] [false, true] [true] [true]).fa_test
              row = row) ∧
    ((∀ pr ∈ ([(([0] : Labels), ([1] : Labels))]).zip [("sa", "x")],
        pr.2.1 ≠ "sa") →
      (Masks.mk [true, false] [false, true] [true] [true]).sa_train =
          List.replicate dsA.nsamples true ∧
        (Masks.mk [true, false] [false, true] [true] [true]).sa_test =
          List.replicate dsA.nsamples true)) :=
  ⟨by decide,
    claim_C9 dsA [([0], [1])] [("sa", "x")]
      ⟨[true, false], [false, true], [true], [true]⟩ (by decide)⟩

/-- C5: for every fold and every index j into the k-sweep, the predicted label
array comes from `predict` on the (transposed) test matrix using the instance
trained on the training matrix, the self-consistent label array from `predict`
on the same test matrix using the duplicate instance trained on the test
matrix (both instances having been trained in place for all earlier k values of
the sweep, starting from the caller's current state), and each configured
metric is applied as `score(predicted, self-consistent, data = test matrix, k)`
with the result recorded at column j of row 1 of that metric's table, whose row
0 is the k-sweep. -/
theorem claim_C5 {σ : Type} (data : Dataset) (split : List (Labels × Labels))
    (cm : CMethod σ) (st : σ) (ks : List Nat)
    (ffx : Option (Dataset → Dataset → Mtx × Mtx)) (gt : Option Labels)
    (metrics : List CMetric) (spaces : List String) (sTr sTe : Mtx)
    (metric : CMetric) (j : Nat)
    (hset : foldSetup data split ffx spaces = .ok (sTr, sTe))
    (hm : metric ∈ metrics)
    (hnd : (metrics.map CMetric.name).Nodup)
    (hgt : ∀ mt ∈ metrics, mt.name ++ "_gt" ≠ metric.name)
    (hj : j < ks.length) :
    ∃ r sfin row,
      _run_fold data split cm st ks ffx gt metrics spaces = .ok (r, sfin) ∧
      dfind r metric.name = some (ks, row) ∧
      row[j]? = some (metric.score
        (cm.predict (trainSeq cm sTr st (ks.take (j + 1))) sTe (ks.getD j 0))
        (cm.predict (trainSeq cm sTe st (ks.take (j + 1))) sTe (ks.getD j 0))
        sTe (ks.getD j 0)) := by
  have hrun := run_fold_eq_ok data split cm st ks ffx gt metrics spaces (sTr, sTe) hset
  have hinit : dfind (initResult ks gt metrics []) metric.name =
      some (ks, List.replicate ks.length 0) :=
    initResult_dfind ks gt metrics metric.name
      (by rw [initResult_keys]; exact Or.inr ⟨metric, hm, Or.inl rfl⟩)
  have hdf := kLoopAux_dfind_self cm metrics gt sTr sTe metric hm hnd hgt ks 0
    ⟨initResult ks gt metrics [], st, st⟩ ks (List.replicate ks.length 0) hinit
  refine ⟨_, _, writeRow cm sTr sTe (fun p tl k => metric.score p tl sTe k)
    (List.replicate ks.length 0) 0 ks st st, hrun, hdf, ?_⟩
  have hget := writeRow_get cm sTr sTe (fun p tl k => metric.score p tl sTe k)
    ks 0 (List.replicate ks.length 0) st st j hj
    (by rw [List.length_replicate]; omega)
  rw [Nat.zero_add] at hget
  exact hget

theorem claim_C5_witness :
    (foldSetup dsA [(([0] : Labels), ([1] : Labels))] none ["sa.x"] =
        .ok ([[1]], [[2]]) ∧
      mHead ∈ [mHead] ∧ (([mHead]).map CMetric.name).Nodup ∧
      (∀ mt ∈ [mHead], mt.name ++ "_gt" ≠ mHead.name) ∧ 0 < ([2] : List Nat).length) ∧
    (∃ r sfin row,
      _run_fold dsA [([0], [1])] cmCount 0 [2] none none [mHead] ["sa.x"] =
        .ok (r, sfin) ∧
      dfind r mHead.name = some ([2], row) ∧
      row[0]? = some (mHead.score
        (cmCount.predict (trainSeq cmCount [[1]] 0 (([2] : List Nat).take 1))
          [[2]] (([2] : List Nat).getD 0 0))
        (cmCount.predict (trainSeq cmCount [[2]] 0 (([2] : List Nat).take 1))
          [[2]] (([2] : List Nat).getD 0 0))
        [[2]] (([2] : List Nat).getD 0 0))) :=
  ⟨⟨by decide, List.mem_cons_self _ _, by decide,
      by intro mt hmt; rw [List.mem_singleton] at hmt; subst hmt; decide,
      by decide⟩,
    claim_C5 dsA [([0], [1])] cmCount 0 [2] none none [mHead] ["sa.x"]
      [[1]] [[2]] mHead 0 (by decide) (List.mem_cons_self _ _) (by decide)
      (by intro mt hmt; rw [List.mem_singleton] at hmt; subst hmt; decide)
      (by decide)⟩

/-- C6: when an external ground-truth label array is supplied, every configured
metric additionally yields the key `identity ++ "_gt"` in the fold's result,
whose row-1 entry at each sweep index j is
`score(predicted, ground-truth, data = test matrix, k)`. -/
theorem claim_C6 {σ : Type} (data : Dataset) (split : List (Labels × Labels))
    (cm : CMethod σ) (st : σ) (ks : List Nat)
    (ffx : Option (Dataset → Dataset → Mtx × Mtx)) (g : Labels)
    (metrics : List CMetric) (spaces : List String) (sTr sTe : Mtx)
    (metric : CMetric) (j : Nat)
    (hset : foldSetup data split ffx spaces = .ok (sTr, sTe))
    (hm : metric ∈ metrics)
    (hnd : (metrics.map CMetric.name).Nodup)
    (hng : ∀ mt ∈ metrics, mt.name ≠ metric.name ++ "_gt")
    (hj : j < ks.length) :
    ∃ r sfin row,
      _run_fold data split cm st ks ffx (some g) metrics spaces = .ok (r, sfin) ∧
      dfind r (metric.name ++ "_gt") = some (ks, row) ∧
      row[j]? = some (metric.score
        (cm.predict (trainSeq cm sTr st (ks.take (j + 1))) sTe (ks.getD j 0))
        g sTe (ks.getD j 0)) := by
  have hrun := run_fold_eq_ok data split cm st ks ffx (some g) metrics spaces
    (sTr, sTe) hset
  have hinit : dfind (initResult ks (some g) metrics []) (metric.name ++ "_gt") =
      some (ks, List.replicate ks.length 0) :=
    initResult_dfind ks (some g) metrics (metric.name ++ "_gt")
      (by rw [initResult_keys]; exact Or.inr ⟨metric, hm, Or.inr ⟨rfl, rfl⟩⟩)
  have hdf := kLoopAux_dfind_gt cm metrics g sTr sTe metric hm hnd hng ks 0
    ⟨initResult ks (some g) metrics [], st, st⟩ ks (List.replicate ks.length 0) hinit
  refine ⟨_, _, writeRow cm sTr sTe (fun p _ k => metric.score p g sTe k)
    (List.replicate ks.length 0) 0 ks st st, hrun, hdf, ?_⟩
  have hget := writeRow_get cm sTr sTe (fun p _ k => metric.score p g sTe k)
    ks 0 (List.replicate ks.length 0) st st j hj
    (by rw [List.length_replicate]; omega)
  rw [Nat.zero_add] at hget
  exact hget

theorem claim_C6_witness :
    (foldSetup dsA [(([0] : Labels), ([1] : Labels))] none ["sa.x"] =
        .ok ([[1]], [[2]]) ∧
      mHead ∈ [mHead] ∧ (([mHead]).map CMetric.name).Nodup ∧
      (∀ mt ∈ [mHead], mt.name ≠ mHead.name ++ "_gt") ∧
      0 < ([2] : List Nat).length) ∧
    (∃ r sfin row,
      _run_fold dsA [([0], [1])] cmCount 0 [2] none (some [9]) [mHead] ["sa.x"] =
        .ok (r, sfin) ∧
      dfind r (mHead.name ++ "_gt") = some ([2], row) ∧
      row[0]? = some (mHead.score
        (cmCount.predict (trainSeq cmCount [[1]] 0 (([2] : List Nat).take 1))
          [[2]] (([2] : List Nat).getD 0 0))
        [9] [[2]] (([2] : List Nat).getD 0 0))) :=
  ⟨⟨by decide, List.mem_cons_self _ _, by decide,
      by intro mt hmt; rw [List.mem_singleton] at hmt; subst hmt; decide,
      by decide⟩,
    claim_C6 dsA [([0], [1])] cmCount 0 [2] none [9] [mHead] ["sa.x"]
      [[1]] [[2]] mHead 0 (by decide) (List.mem_cons_self _ _) (by decide)
      (by intro mt hmt; rw [List.mem_singleton] at hmt; subst hmt; decide)
      (by decide)⟩

theorem aggregate_shape (ks : List Nat) (n : Nat) (results : List FoldResult)
    (scores : List (String × Table))
    (hagg : aggregate results = .ok scores)
    (hlen : results.length = n)
    (hshape : ∀ r ∈ results, ∀ p ∈ r, p.2.1 = ks ∧ p.2.2.length = ks.length) :
    ∀ key t, dfind scores key = some t →
      t.1 = (List.replicate n ks).flatten ∧
      t.1.length = ks.length * n ∧
      t.2.length = ks.length * n ∧
      t = hstackTables (results.map (fun r => (dfind r key).getD ([], []))) ∧
      ∀ r ∈ results, ∃ tr, dfind r key = some tr ∧ tr.1 = ks ∧
        tr.2.length = ks.length := by
  intro key t hf
  cases hres : results with
  | nil =>
    subst hres
    have hbad : (Except.error (PyError.indexError "list index out of range") :
        Except PyError (List (String × Table))) = .ok scores := hagg
    exact absurd hbad (by simp)
  | cons r0 rrest =>
    subst hres
    have hagg2 : aggAux (r0 :: rrest) r0 [] = .ok scores := hagg
    have hgood := aggAux_dfind (r0 :: rrest) r0 [] scores hagg2
      (by intro key' t' hf'; simp [dfind] at hf') key t hf
    obtain ⟨hpres, hteq⟩ := hgood
    have hper : ∀ r ∈ (r0 :: rrest), ∃ tr, dfind r key = some tr ∧ tr.1 = ks ∧
        tr.2.length = ks.length := by
      intro r hr
      rcases hpres r hr with ⟨tr, htr⟩
      have hmem := dfind_mem r key tr htr
      have hsh := hshape r hr (key, tr) hmem
      exact ⟨tr, htr, hsh.1, hsh.2⟩
    have hrow0each : ∀ r ∈ (r0 :: rrest),
        ((dfind r key).getD ([], [])).1 = ks := by
      intro r hr
      rcases hper r hr with ⟨tr, htr, h1, _⟩
      rw [htr]
      exact h1
    have hrow1each : ∀ r ∈ (r0 :: rrest),
        ((dfind r key).getD ([], [])).2.length = ks.length := by
      intro r hr
      rcases hper r hr with ⟨tr, htr, _, h2⟩
      rw [htr]
      exact h2
    have hmap0 : ((r0 :: rrest).map (fun r => (dfind r key).getD ([], []))).map
        Prod.fst = List.replicate (r0 :: rrest).length ks := by
      rw [List.map_map]
      exact mapConstEq ks (r0 :: rrest) _ hrow0each
    have ht1 : t.1 = (List.replicate n ks).flatten := by
      rw [hteq]
      show (((r0 :: rrest).map (fun r => (dfind r key).getD ([], []))).map
        Prod.fst).flatten = _
      rw [hmap0, hlen]
    have hreplen : ∀ x ∈ List.replicate n ks, x.length = ks.length := by
      intro x hx
      rw [List.eq_of_mem_replicate hx]
    have ht1len : t.1.length = ks.length * n := by
      rw [ht1, flattenLenAll ks.length _ hreplen, List.length_replicate,
        Nat.mul_comm]
    have ht2len : t.2.length = ks.length * n := by
      rw [hteq]
      show (((r0 :: rrest).map (fun r => (dfind r key).getD ([], []))).map
        Prod.snd).flatten.length = _
      rw [flattenLenAll ks.length _ ?_, List.length_map, List.length_map,
        hlen, Nat.mul_comm]
      intro x hx
      rcases List.mem_map.mp hx with ⟨tb, htb, hxeq⟩
      rcases List.mem_map.mp htb with ⟨r, hrmem, htbeq⟩
      rw [← hxeq, ← htbeq]
      exact hrow1each r hrmem
    exact ⟨ht1, ht1len, ht2len, hteq, hper⟩

theorem except_map_fst_ok {σ : Type} (x : Except PyError (FoldResult × σ))
    (r : FoldResult) (h : x.map Prod.fst = .ok r) : ∃ s, x = .ok (r, s) := by
  cases x with
  | error e =>
    have h2 : (Except.error e : Except PyError FoldResult) = .ok r := h
    exact absurd h2 (by simp)
  | ok pr =>
    have h2 : (Except.ok pr.1 : Except PyError FoldResult) = .ok r := h
    have h3 := Except.ok.inj h2
    exact ⟨pr.2, by rw [← h3]⟩

theorem collectResults_length :
    ∀ (xs : List (Except PyError FoldResult)) (results : List FoldResult),
      collectResults xs = .ok results → results.length = xs.length := by
  intro xs
  induction xs with
  | nil =>
    intro results h
    have h2 : (Except.ok [] : Except PyError (List FoldResult)) = .ok results := h
    rw [← Except.ok.inj h2]
    rfl
  | cons x rest ih =>
    intro results h
    cases x with
    | error e =>
      have h2 : (Except.error e : Except PyError (List FoldResult)) = .ok results := h
      exact absurd h2 (by simp)
    | ok r =>
      rw [collectResults_cons_ok] at h
      cases hrest : collectResults rest with
      | error e =>
        rw [hrest] at h
        have h2 : (Except.error e : Except PyError (List FoldResult)) = .ok results := h
        exact absurd h2 (by simp)
      | ok rs =>
        rw [hrest] at h
        have h2 : (Except.ok (r :: rs) : Except PyError (List FoldResult)) =
            .ok results := h
        rw [← Except.ok.inj h2, List.length_cons, ih rs hrest]
        rfl

theorem collectResults_mem :
    ∀ (xs : List (Except PyError FoldResult)) (results : List FoldResult),
      collectResults xs = .ok results → ∀ r ∈ results, Except.ok r ∈ xs := by
  intro xs
  induction xs with
  | nil =>
    intro results h r hr
    have h2 : (Except.ok [] : Except PyError (List FoldResult)) = .ok results := h
    rw [← Except.ok.inj h2] at hr
    simp at hr
  | cons x rest ih =>
    intro results h r hr
    cases x with
    | error e =>
      have h2 : (Except.error e : Except PyError (List FoldResult)) = .ok results := h
      exact absurd h2 (by simp)
    | ok r0 =>
      rw [collectResults_cons_ok] at h
      cases hrest : collectResults rest with
      | error e =>
        rw [hrest] at h
        have h2 : (Except.error e : Except PyError (List FoldResult)) = .ok results := h
        exact absurd h2 (by simp)
      | ok rs =>
        rw [hrest] at h
        have h2 : (Except.ok (r0 :: rs) : Except PyError (List FoldResult)) =
            .ok results := h
        rw [← Except.ok.inj h2] at hr
        rcases List.mem_cons.mp hr with hh | hh
        · exact hh ▸ List.mem_cons_self _ _
        · exact List.mem_cons_of_mem _ (ih rs hrest r hh)

/-- C2: for every run with n enumerated folds and an m-element k-sweep — under
sequential dispatch, and under parallel dispatch for any worker completion
order that finishes every dispatched fold — every table in the aggregated
result is the horizontal concatenation of the n per-fold 2×m tables in
fold-enumeration order: its row 0 is the k-sweep tiled n times, both rows have
length m·n, and each per-fold block has row 0 equal to the sweep and m score
entries. -/
theorem claim_C2 {σ : Type} (data : Dataset)
    (splitters : List (List (Labels × Labels))) (cm : CMethod σ) (st : σ)
    (ks : List Nat) (gt : Option Labels)
    (ffx : Option (Dataset → Dataset → Mtx × Mtx)) (metrics : List CMetric)
    (spaces : List String) :
    (∀ scores : List (String × Table),
      reproducibility_seq data splitters cm st ks gt ffx metrics spaces =
        .ok scores →
      ∃ results st',
        runFoldsSeq data cm ks ffx gt metrics spaces (listProd splitters) st =
          .ok (results, st') ∧
        results.length = (listProd splitters).length ∧
        ∀ key t, dfind scores key = some t →
          t.1 = (List.replicate (listProd splitters).length ks).flatten ∧
          t.1.length = ks.length * (listProd splitters).length ∧
          t.2.length = ks.length * (listProd splitters).length ∧
          t = hstackTables (results.map (fun r => (dfind r key).getD ([], []))) ∧
          ∀ r ∈ results, ∃ tr, dfind r key = some tr ∧ tr.1 = ks ∧
            tr.2.length = ks.length) ∧
    (∀ (completion : List Nat) (scores : List (String × Table)),
      (∀ i, i < (listProd splitters).length → i ∈ completion) →
      reproducibility_par data splitters cm st ks gt ffx metrics spaces
        completion = .ok scores →
      ∃ results,
        collectResults (runFoldsPar data (listProd splitters) cm st ks ffx gt
          metrics spaces completion) = .ok results ∧
        results.length = (listProd splitters).length ∧
        ∀ key t, dfind scores key = some t →
          t.1 = (List.replicate (listProd splitters).length ks).flatten ∧
          t.1.length = ks.length * (listProd splitters).length ∧
          t.2.length = ks.length * (listProd splitters).length ∧
          t = hstackTables (results.map (fun r => (dfind r key).getD ([], []))) ∧
          ∀ r ∈ results, ∃ tr, dfind r key = some tr ∧ tr.1 = ks ∧
            tr.2.length = ks.length) := by
  constructor
  · intro scores hok
    unfold reproducibility_seq at hok
    by_cases hcond : splitters.length = spaces.length
    · rw [if_pos hcond] at hok
      cases hrun : runFoldsSeq data cm ks ffx gt metrics spaces
          (listProd splitters) st with
      | error e => rw [hrun] at hok; exact absurd hok (by simp)
      | ok pr =>
        obtain ⟨results, st'⟩ := pr
        rw [hrun] at hok
        have hagg : aggregate results = .ok scores := hok
        have hlen := runFoldsSeq_length data cm ks ffx gt metrics spaces
          (listProd splitters) st results st' hrun
        have hshape : ∀ r ∈ results, ∀ p ∈ r,
            p.2.1 = ks ∧ p.2.2.length = ks.length :=
          fun r hr => (runFoldsSeq_results data cm ks ffx gt metrics spaces
            (listProd splitters) st results st' hrun r hr).1
        exact ⟨results, st', rfl, hlen,
          aggregate_shape ks (listProd splitters).length results scores hagg
            hlen hshape⟩
    · rw [if_neg hcond] at hok
      exact absurd hok (by simp)
  · intro completion scores hcov hok
    unfold reproducibility_par at hok
    by_cases hcond : splitters.length = spaces.length
    · rw [if_pos hcond] at hok
      cases hcol : collectResults (runFoldsPar data (listProd splitters) cm st ks
          ffx gt metrics spaces completion) with
      | error e => rw [hcol] at hok; exact absurd hok (by simp)
      | ok results =>
        rw [hcol] at hok
        have hagg : aggregate results = .ok scores := hok
        have hlen : results.length = (listProd splitters).length := by
          have hL1 := collectResults_length _ results hcol
          rw [runFoldsPar_cov data (listProd splitters) cm st ks ffx gt metrics
            spaces completion hcov, List.length_map] at hL1
          exact hL1
        have hshape : ∀ r ∈ results, ∀ p ∈ r,
            p.2.1 = ks ∧ p.2.2.length = ks.length := by
          intro r hr
          have hmemx := collectResults_mem _ results hcol r hr
          rw [runFoldsPar_cov data (listProd splitters) cm st ks ffx gt metrics
            spaces completion hcov] at hmemx
          rcases List.mem_map.mp hmemx with ⟨f, hf, hFf⟩
          rcases except_map_fst_ok _ r hFf with ⟨s, hx⟩
          exact fun p hp => (run_fold_shape data f cm st ks ffx gt metrics
            spaces r s hx).1 p hp
        exact ⟨results, rfl, hlen,
          aggregate_shape ks (listProd splitters).length results scores hagg
            hlen hshape⟩
    · rw [if_neg hcond] at hok
      exact absurd hok (by simp)

theorem claim_C2_witness :
    (reproducibility_seq dsA splA cmCount 0 [2] none none [mHead] ["sa.x"] =
        .ok [("m", ([2, 2], [1, 2]))] ∧
      (∀ i, i < (listProd splA).length → i ∈ [1, 0]) ∧
      reproducibility_par dsA splA cmCount 0 [2] none none [mHead] ["sa.x"]
        [1, 0] = .ok [("m", ([2, 2], [1, 1]))]) ∧
    (∃ results st',
      runFoldsSeq dsA cmCount [2] none none [mHead] ["sa.x"] (listProd splA) 0 =
        .ok (results, st') ∧
      results.length = (listProd splA).length ∧
      ∀ key t, dfind [("m", (([2, 2] : List Nat), ([1, 2] : List Int)))] key =
          some t →
        t.1 = (List.replicate (listProd splA).length [2]).flatten ∧
        t.1.length = ([2] : List Nat).length * (listProd splA).length ∧
        t.2.length = ([2] : List Nat).length * (listProd splA).length ∧
        t = hstackTables (results.map (fun r => (dfind r key).getD ([], []))) ∧
        ∀ r ∈ results, ∃ tr, dfind r key = some tr ∧ tr.1 = [2] ∧
          tr.2.length = ([2] : List Nat).length) ∧
    (∃ results,
      collectResults (runFoldsPar dsA (listProd splA) cmCount 0 [2] none none
        [mHead] ["sa.x"] [1, 0]) = .ok results ∧
      results.length = (listProd splA).length ∧
      ∀ key t, dfind [("m", (([2, 2] : List Nat), ([1, 1] : List Int)))] key =
          some t →
        t.1 = (List.replicate (listProd splA).length [2]).flatten ∧
        t.1.length = ([2] : List Nat).length * (listProd splA).length ∧
        t.2.length = ([2] : List Nat).length * (listProd splA).length ∧
        t = hstackTables (results.map (fun r => (dfind r key).getD ([], []))) ∧
        ∀ r ∈ results, ∃ tr, dfind r key = some tr ∧ tr.1 = [2] ∧
          tr.2.length = ([2] : List Nat).length) :=
  ⟨⟨by decide, by decide, by decide⟩,
    (claim_C2 dsA splA cmCount 0 [2] none none [mHead] ["sa.x"]).1
      [("m", ([2, 2], [1, 2]))] (by decide),
    (claim_C2 dsA splA cmCount 0 [2] none none [mHead] ["sa.x"]).2
      [1, 0] [("m", ([2, 2], [1, 1]))] (by decide) (by decide)⟩
/-- C8 (counterexample): sequential and parallel dispatch are not always
identical even for a deterministic cluster method: a stateful method is carried
across folds by the sequential backend but pickled fresh per fold by the
parallel one, so the aggregated tables differ. -/
theorem claim_C8_counterexample :
    reproducibility_seq dsA splA cmCount 0 [2, 3] none none [mHead] ["sa.x"] ≠
      reproducibility_par dsA splA cmCount 0 [2, 3] none none [mHead] ["sa.x"]
        (List.range (listProd splA).length) := by
  decide

/-- C8 (amended): under parallel dispatch the aggregated result is independent
of the worker completion order — per-fold column blocks always appear in
Cartesian-product fold-enumeration order — and sequential and parallel dispatch
produce identical aggregated tables whenever the cluster method's training
result does not depend on its prior state; for a method with cross-call state
the two dispatch modes can differ (see the counterexample). -/
theorem claim_C8_amended {σ : Type} (data : Dataset)
    (splitters : List (List (Labels × Labels))) (cm : CMethod σ) (st : σ)
    (ks : List Nat) (gt : Option Labels)
    (ffx : Option (Dataset → Dataset → Mtx × Mtx)) (metrics : List CMetric)
    (spaces : List String) (completion : List Nat)
    (hcov : ∀ i, i < (listProd splitters).length → i ∈ completion) :
    reproducibility_par data splitters cm st ks gt ffx metrics spaces completion =
      reproducibility_par data splitters cm st ks gt ffx metrics spaces
        (List.range (listProd splitters).length) ∧
    ((∀ (s s' : σ) (m : Mtx) (k : Nat), cm.train s m k = cm.train s' m k) →
      reproducibility_seq data splitters cm st ks gt ffx metrics spaces =
        reproducibility_par data splitters cm st ks gt ffx metrics spaces
          completion) := by
  constructor
  · unfold reproducibility_par
    rw [runFoldsPar_cov data (listProd splitters) cm st ks ffx gt metrics spaces
        completion hcov,
      runFoldsPar_cov data (listProd splitters) cm st ks ffx gt metrics spaces
        (List.range (listProd splitters).length)
        (fun i hi => List.mem_range.mpr hi)]
  · intro htf
    unfold reproducibility_seq reproducibility_par
    by_cases hcond : splitters.length = spaces.length
    · rw [if_pos hcond, if_pos hcond]
      rw [runFoldsPar_cov data (listProd splitters) cm st ks ffx gt metrics spaces
        completion hcov]
      have hseq := runFoldsSeq_state_free data cm ks ffx gt metrics spaces htf st
        (listProd splitters) st
      cases hrun : runFoldsSeq data cm ks ffx gt metrics spaces
          (listProd splitters) st with
      | error e =>
        rw [hrun] at hseq
        have hc : collectResults ((listProd splitters).map (fun f =>
            (_run_fold data f cm st ks ffx gt metrics spaces).map Prod.fst)) =
            .error e := by
          rw [← hseq]
          rfl
        rw [hc]
      | ok pr =>
        obtain ⟨results, st'⟩ := pr
        rw [hrun] at hseq
        have hc : collectResults ((listProd splitters).map (fun f =>
            (_run_fold data f cm st ks ffx gt metrics spaces).map Prod.fst)) =
            .ok results := by
          rw [← hseq]
          rfl
        rw [hc]
    · rw [if_neg hcond, if_neg hcond]

theorem claim_C8_witness :
    (∀ i, i < (listProd splA).length → i ∈ [1, 0]) ∧
    (reproducibility_par dsA splA cmZero 0 [2] none none [mHead] ["sa.x"] [1, 0] =
        reproducibility_par dsA splA cmZero 0 [2] none none [mHead] ["sa.x"]
          (List.range (listProd splA).length) ∧
      ((∀ (s s' : Nat) (m : Mtx) (k : Nat), cmZero.train s m k = cmZero.train s' m k) →
        reproducibility_seq dsA splA cmZero 0 [2] none none [mHead] ["sa.x"] =
          reproducibility_par dsA splA cmZero 0 [2] none none [mHead] ["sa.x"]
            [1, 0])) :=
  ⟨by decide,
    claim_C8_amended dsA splA cmZero 0 [2] none none [mHead] ["sa.x"] [1, 0]
      (by decide)⟩
